import Mathlib

/-!
# usm: secret derivation and key codec

A shallow embedding of `internal/usm/usm.go`: `Key.Secret`, `Key.Passphrase`,
`MakeKey` and `LoadKey`.  Go strings and byte slices are byte lists.  The
libraries the code calls (HKDF, bech32, the random source, age and its armor)
are parameters of the definitions.
-/

namespace Usm

/-! # Definitions -/

/-! ## Go values -/

/-- One byte. -/
abbrev Byte := Fin 256

/-- Go `string` / `[]byte`: a sequence of bytes. -/
abbrev GoString := List Byte

/-- Go `error` values: `errors.New(msg)` and `fmt.Errorf("...%w", inner)`. -/
inductive GoError where
  | new (msg : String)
  | wrap (msg : String) (inner : GoError)
  deriving DecidableEq

/-- The method `Error()` of an error value. -/
def GoError.Error : GoError → String
  | .new msg => msg
  | .wrap msg _ => msg

/-- The function `errors.Unwrap`. -/
def GoError.Unwrap : GoError → Option GoError
  | .new _ => none
  | .wrap _ inner => some inner

/-- The call `fmt.Errorf(pfx + "%w", err)`: with a nil operand the verb is
    a bad verb, nothing is wrapped and the text is `%!w(<nil>)`. -/
def errorfW (pfx : String) : Option GoError → GoError
  | some e => .wrap (pfx ++ e.Error) e
  | none => .new (pfx ++ "%!w(<nil>)")

/-- What a Go call does: it returns a value or it panics. -/
inductive Outcome (α : Type) where
  | ret (a : α)
  | panic (msg : String)
  deriving DecidableEq

/-! ## Data model -/

/-- The type `age.X25519Identity`, given by its secret key bytes. -/
structure X25519Identity where
  secretKey : List Byte
  deriving DecidableEq

/-- The struct `Key`. -/
structure Key where
  ageIdentity : X25519Identity
  deriving DecidableEq

/-- The interface `Seeder` (with the embedded `Ruler`), as the values its
    methods return: `Salt()` is `none` for a nil slice. -/
structure Seeder where
  Template : Except GoError GoString
  Len : Int
  Salt : Option (List Byte)
  Info : List Byte

/-! ## Libraries used by `Key.Secret` -/

/-- Output limit of HKDF with SHA-256: 255 blocks of 32 bytes. -/
def hkdfLimit : Nat := 255 * 32

/-- The error of the HKDF reader once its output is used up. -/
def hkdfEntropyErr : GoError := .new "hkdf: entropy limit reached"

/-- The library calls of `Key.Secret`. -/
structure SecretLib where
  /-- The method `String()` of the age identity. -/
  identityString : X25519Identity → GoString
  /-- The function `bech32.Decode`: human-readable part and data, or an error. -/
  bech32Decode : GoString → Except GoError (GoString × List Byte)
  /-- HKDF-SHA256 output for (secret, salt, info). -/
  hkdfExpand : List Byte → List Byte → List Byte → List Byte

/-- The call `rand.Read` on a buffer of the given size, as it turns out at
    one call of `Key.Secret`. -/
abbrev RandRead := Nat → Except GoError (List Byte)

/-- The reader `hkdf.New(sha256.New, secret, salt, info)`: the bytes it will
    deliver; a read past `hkdfLimit` bytes fails. -/
def hkdfNew (L : SecretLib) (secret salt info : List Byte) : List Byte :=
  (L.hkdfExpand secret salt info).take hkdfLimit

/-- The function `bytes.Contains(b, subslice)`. -/
def bytesContains : List Byte → List Byte → Bool
  | [], subslice => subslice.isEmpty
  | x :: b, subslice => subslice.isPrefixOf (x :: b) || bytesContains b subslice

/-! ## `Key.Secret` -/

/-- State at the end of the sampling loop: the two return values and what is
    left of the keystream reader. -/
structure LoopResult where
  secret : GoString
  err : Option GoError
  reader : List Byte
  deriving DecidableEq

/-- The `for` loop of `Key.Secret` (usm.go 206-221).  Each round is one
    `io.ReadFull(reader, buf)` with a one-byte `buf`: on an exhausted reader the
    function returns `"", err`; a byte outside `chars` is skipped; an accepted
    byte is written to `secret` and the loop ends when `secret.Len()` equals
    `seeder.Len()`. -/
def secretLoop (chars : List Byte) (len : Int) : List Byte → List Byte → LoopResult
  | [], _ => ⟨[], some hkdfEntropyErr, []⟩
  | b :: reader, secret =>
    if !bytesContains chars [b] then
      secretLoop chars len reader secret
    else if ((secret ++ [b]).length : Int) = len then
      ⟨secret ++ [b], none, reader⟩
    else
      secretLoop chars len reader (secret ++ [b])

/-- The salt of `Key.Secret` (usm.go 182-188): the seeder's, or, when that is
    nil, 32 random bytes; a failing `rand.Read` panics. -/
def resolveSalt (rand : RandRead) (seeder : Seeder) : Outcome (List Byte) :=
  match seeder.Salt with
  | some salt => .ret salt
  | none =>
    match rand 32 with
    | .error e => .panic e.Error
    | .ok salt => .ret salt

/-- The method `Key.Secret` up to the end of its loop (usm.go 179-223). -/
def secretRun (L : SecretLib) (rand : RandRead) (k : Key) (seeder : Seeder) :
    Outcome LoopResult :=
  match resolveSalt rand seeder with
  | .panic msg => .panic msg
  | .ret salt =>
    match L.bech32Decode (L.identityString k.ageIdentity) with
    | .error e => .panic ("could not decode the age identity " ++ e.Error)
    | .ok (_, data) =>
      let reader := hkdfNew L data salt seeder.Info
      match seeder.Template with
      | .error err => .ret ⟨[], some err, reader⟩
      | .ok template => .ret (secretLoop template seeder.Len reader [])

/-- The method `Key.Secret`: the returned `(string, error)`. -/
def Key.Secret (L : SecretLib) (rand : RandRead) (k : Key) (seeder : Seeder) :
    Outcome (GoString × Option GoError) :=
  match secretRun L rand k seeder with
  | .panic msg => .panic msg
  | .ret r => .ret (r.secret, r.err)

/-- The keystream bytes that belong to the alphabet, in keystream order. -/
def accepted (chars ks : List Byte) : List Byte :=
  ks.filter (fun b => bytesContains chars [b])

/-! ## `Key.Passphrase` -/

/-- The word source behind `ageusm.RandomWord()`: each call delivers a word
    and moves the source on. -/
structure WordSource (σ : Type) where
  RandomWord : σ → GoString × σ

/-- The function `strings.Join(elems, sep)`. -/
def stringsJoin : List GoString → GoString → GoString
  | [], _ => []
  | [a], _ => a
  | a :: b :: rest, sep => a ++ sep ++ stringsJoin (b :: rest) sep

/-- The loop `for i := 0; i < numWords; i++` of `Key.Passphrase`, by the
    number of rounds still to run: each round appends one drawn word. -/
def passphraseLoop {σ : Type} (W : WordSource σ) : Nat → σ → List GoString → List GoString × σ
  | 0, st, words => (words, st)
  | n + 1, st, words =>
    passphraseLoop W n (W.RandomWord st).2 (words ++ [(W.RandomWord st).1])

/-- The method `Key.Passphrase` (usm.go 170-176): the returned
    `(string, error)` and the word source after the call. -/
def Key.Passphrase {σ : Type} (W : WordSource σ) (_k : Key) (numWords : Int) (st : σ) :
    (GoString × Option GoError) × σ :=
  let r := passphraseLoop W numWords.toNat st []
  ((stringsJoin r.1 [45], none), r.2)

/-- The first `n` words the source delivers from state `st`, in draw order. -/
def draws {σ : Type} (W : WordSource σ) : Nat → σ → List GoString
  | 0, _ => []
  | n + 1, st => (W.RandomWord st).1 :: draws W n (W.RandomWord st).2

/-- The word source after `n` draws. -/
def afterDraws {σ : Type} (W : WordSource σ) : Nat → σ → σ
  | 0, st => st
  | n + 1, st => afterDraws W n (W.RandomWord st).2

/-! ## Key codec: `MakeKey` and `LoadKey` -/

/-- The interface `age.Identity` by dynamic type: `*age.X25519Identity`, or
    another implementation, named as `%T` prints it. -/
inductive Identity where
  | x25519 (id : X25519Identity)
  | other (typeName : String)
  deriving DecidableEq

/-- The type `age.ScryptRecipient`. -/
structure ScryptRecipient where
  password : GoString
  deriving DecidableEq

/-- The type `age.ScryptIdentity`. -/
structure ScryptIdentity where
  password : GoString
  deriving DecidableEq

/-- The calls into `filippo.io/age` and its `armor` package.  `β` is the state
    of the stream handed to `MakeKey` as `w` and to `LoadKey` as `r`; `τ` is the
    state of the writers stacked on `w` (the armor writer `a` and, once
    `age.Encrypt` has returned it, the encrypting writer `e`). -/
structure AgeLib (β τ : Type) where
  /-- What `%s` prints for the identity. -/
  identityString : X25519Identity → GoString
  /-- What `%s` prints for `ageIdentity.Recipient()`. -/
  recipientString : X25519Identity → GoString
  NewScryptRecipient : GoString → Except GoError ScryptRecipient
  NewScryptIdentity : GoString → Except GoError ScryptIdentity
  /-- Whether nothing has been written to the stream yet. -/
  isEmpty : β → Bool
  /-- The call `armor.NewWriter(w)`. -/
  armorNewWriter : β → τ
  /-- The call `age.Encrypt(a, recipient)`. -/
  Encrypt : τ → ScryptRecipient → Option GoError × τ
  /-- The call `e.Write(data)`. -/
  Write : τ → List Byte → Option GoError × τ
  /-- The call `e.Close()`. -/
  Close : τ → Option GoError × τ
  /-- The call `a.Close()`; it leaves the stream `w`. -/
  armorClose : τ → Option GoError × β
  /-- The calls `armor.NewReader(r)` and `age.Decrypt(a, identity)`, with the
      plaintext the returned reader delivers. -/
  Decrypt : β → ScryptIdentity → Except GoError (List Byte)
  /-- The call `age.ParseIdentities(d)`. -/
  ParseIdentities : List Byte → Except GoError (List Identity)

/-- The closure `wrapErr` of `MakeKey`; its operand may be nil. -/
def makeWrapErr (err : Option GoError) : GoError :=
  errorfW "usm: makekey error: " err

/-- The closure `wrapErr` of `LoadKey`. -/
def loadWrapErr (err : GoError) : GoError :=
  errorfW "usm: loadkey error: " (some err)

/-- The text `MakeKey` encrypts (usm.go 105-108): `# created: <now>`,
    `# public key: <recipient>` and the identity, one line each. -/
def keyFileData {β τ : Type} (L : AgeLib β τ) (now : GoString) (x : X25519Identity) :
    List Byte :=
  [35, 32, 99, 114, 101, 97, 116, 101, 100, 58, 32] ++ now ++ [10]
    ++ ([35, 32, 112, 117, 98, 108, 105, 99, 32, 107, 101, 121, 58, 32]
        ++ L.recipientString x ++ [10])
    ++ (L.identityString x ++ [10])

/-- The named results `key`, `err` of `MakeKey` and `LoadKey` with the state
    of the stream. -/
structure KeyResult (β : Type) where
  key : Option Key
  err : Option GoError
  w : β
  deriving DecidableEq

/-- The part of `MakeKey` after the `defer` (usm.go 99-124): `key`, `err` and
    the writers at the `return`.  At each failing step `err` is set to
    `wrapErr(ierr)` where `ierr` is nil at that point. -/
def makeKeyBody {β τ : Type} (L : AgeLib β τ) (now : GoString) (ageIdentity : X25519Identity)
    (ageScryptRecipient : ScryptRecipient) (a : τ) : Option Key × Option GoError × τ :=
  match L.Encrypt a ageScryptRecipient with
  | (some _, a₁) => (none, some (makeWrapErr none), a₁)
  | (none, a₁) =>
    match L.Write a₁ (keyFileData L now ageIdentity) with
    | (some _, a₂) => (none, some (makeWrapErr none), a₂)
    | (none, a₂) =>
      match L.Close a₂ with
      | (some _, a₃) => (none, some (makeWrapErr none), a₃)
      | (none, a₃) => (some ⟨ageIdentity⟩, none, a₃)

/-- The function `MakeKey` (usm.go 73-125).  `gen` is what
    `age.GenerateX25519Identity()` returns and `now` the formatted
    `time.Now()`.  The deferred `a.Close()` runs after the body and overwrites
    `err` when it fails. -/
def MakeKey {β τ : Type} (L : AgeLib β τ) (gen : Except GoError X25519Identity)
    (now : GoString) (password : GoString) (w : β) : KeyResult β :=
  match gen with
  | .error ierr => ⟨none, some (makeWrapErr (some ierr)), w⟩
  | .ok ageIdentity =>
    match L.NewScryptRecipient password with
    | .error ierr => ⟨none, some (makeWrapErr (some ierr)), w⟩
    | .ok ageScryptRecipient =>
      match makeKeyBody L now ageIdentity ageScryptRecipient (L.armorNewWriter w) with
      | (key, err, a) =>
        match L.armorClose a with
        | (some ierr, w₁) => ⟨key, some (makeWrapErr (some ierr)), w₁⟩
        | (none, w₁) => ⟨key, err, w₁⟩

/-- The function `LoadKey` (usm.go 128-168): the named results `key`, `err`,
    or the panic of `ageIdentities[0]` on an empty slice. -/
def LoadKey {β τ : Type} (L : AgeLib β τ) (password : GoString) (r : β) :
    Outcome (Option Key × Option GoError) :=
  match L.NewScryptIdentity password with
  | .error ierr => .ret (none, some (loadWrapErr ierr))
  | .ok ageScryptIdentity =>
    match L.Decrypt r ageScryptIdentity with
    | .error ierr => .ret (none, some (loadWrapErr ierr))
    | .ok d =>
      match L.ParseIdentities d with
      | .error ierr => .ret (none, some (loadWrapErr ierr))
      | .ok ageIdentities =>
        if ageIdentities.length > 1 then
          .ret (none, some (loadWrapErr (.new
            ("only one identity per file is supported, found "
              ++ toString ageIdentities.length))))
        else
          match ageIdentities with
          | [] => .panic "runtime error: index out of range [0] with length 0"
          | .x25519 ageIdentity :: _ => .ret (some ⟨ageIdentity⟩, none)
          | .other typeName :: _ =>
            .ret (none, some (loadWrapErr (.new
              ("only *age.X25519Identity are supported, got " ++ typeName))))

/-- The four writer calls of `MakeKey` all succeeded on the stream `w` and
    left it as `w₁`. -/
def Sealed {β τ : Type} (L : AgeLib β τ) (w : β) (rcp : ScryptRecipient) (data : List Byte)
    (w₁ : β) : Prop :=
  ∃ a₁ a₂ a₃, L.Encrypt (L.armorNewWriter w) rcp = (none, a₁)
    ∧ L.Write a₁ data = (none, a₂) ∧ L.Close a₂ = (none, a₃)
    ∧ L.armorClose a₃ = (none, w₁)

/-- What the codec relies on from the age library: a sealed envelope on a
    fresh stream opens to its plaintext under the same passphrase and does not
    open under another one, and the key file text parses to its one identity. -/
structure Lawful {β τ : Type} (L : AgeLib β τ) : Prop where
  open_sealed : ∀ p rcp w data w₁, L.isEmpty w = true →
    L.NewScryptRecipient p = .ok rcp → Sealed L w rcp data w₁ →
    ∃ id, L.NewScryptIdentity p = .ok id ∧ L.Decrypt w₁ id = .ok data
  wrong_passphrase : ∀ p q rcp id w data w₁, L.isEmpty w = true →
    L.NewScryptRecipient p = .ok rcp → Sealed L w rcp data w₁ → q ≠ p →
    L.NewScryptIdentity q = .ok id → ∃ e, L.Decrypt w₁ id = .error e
  parse_keyfile : ∀ now x, (10 : Byte) ∉ now →
    L.ParseIdentities (keyFileData L now x) = .ok [.x25519 x]

/-! ## Small instances of the libraries -/

/-- A stand-in for the libraries of `Key.Secret`: the identity prints as its
    key bytes, decoding gives them back, and the keystream is secret, salt and
    info one after the other. -/
def demoSecretLib : SecretLib where
  identityString := fun x => x.secretKey
  bech32Decode := fun s => if s.isEmpty then .error (.new "invalid bech32 string") else .ok ([], s)
  hkdfExpand := fun secret salt info => secret ++ salt ++ info

/-- A random source that delivers the bytes 7, 7, ... -/
def demoRand : RandRead := fun n => .ok (List.replicate n 7)

/-- A random source that fails. -/
def demoRandFail : RandRead := fun _ => .error (.new "no entropy")

/-- A key with the secret bytes `abcd`. -/
def demoKey : Key := ⟨⟨[97, 98, 99, 100]⟩⟩

/-- A seeder with alphabet `bd`, length 2, salt `b` and info `xd`. -/
def demoSeeder : Seeder := ⟨.ok [98, 100], 2, some [98], [120, 100]⟩

/-- A word source over a list of words, delivered cyclically from the front. -/
def demoWords : WordSource (List GoString) where
  RandomWord := fun st =>
    match st with
    | [] => ([], [])
    | w :: rest => (w, rest ++ [w])

/-- Newline-free coding of key bytes: each byte is followed by a flag, and the
    byte 10 is written as 11 with the flag 1. -/
def demoEncode : List Byte → List Byte
  | [] => []
  | b :: t => (if b = 10 then 11 else b) :: (if b = 10 then 1 else 0) :: demoEncode t

/-- Inverse of `demoEncode`. -/
def demoDecode : List Byte → List Byte
  | c :: f :: t => (if f = 1 then 10 else c) :: demoDecode t
  | _ => []

/-- The last line of a text that ends in a newline. -/
def demoLastLine (d : List Byte) : List Byte :=
  (d.dropLast.reverse.takeWhile (fun b => b != 10)).reverse

/-- The writers of the stand-in library: the passphrase the envelope is
    sealed with, the plaintext written so far and the stream below. -/
structure DemoWriter where
  password : Option GoString
  data : List Byte
  w : Option (GoString × List Byte)
  deriving DecidableEq

/-- A stand-in for the age library.  A stream is empty or holds one envelope,
    a passphrase with a plaintext; an identity prints as `A` and its coded
    key bytes, and the parser reads the identity from the last line. -/
def demoAge : AgeLib (Option (GoString × List Byte)) DemoWriter where
  identityString := fun x => 65 :: demoEncode x.secretKey
  recipientString := fun x => 97 :: demoEncode x.secretKey.reverse
  NewScryptRecipient := fun p =>
    if p.isEmpty then .error (.new "passphrase can't be empty") else .ok ⟨p⟩
  NewScryptIdentity := fun p =>
    if p.isEmpty then .error (.new "passphrase can't be empty") else .ok ⟨p⟩
  isEmpty := fun w => w.isNone
  armorNewWriter := fun w => ⟨none, [], w⟩
  Encrypt := fun a rcp => (none, { a with password := some rcp.password })
  Write := fun a d => (none, { a with data := a.data ++ d })
  Close := fun a => (none, a)
  armorClose := fun a =>
    (none, match a.password with
      | some p => some (p, a.data)
      | none => a.w)
  Decrypt := fun r id =>
    match r with
    | none => .error (.new "no armor found")
    | some (p, d) => if p = id.password then .ok d else .error (.new "incorrect passphrase")
  ParseIdentities := fun d =>
    match demoLastLine d with
    | 65 :: rest => .ok [.x25519 ⟨demoDecode rest⟩]
    | _ => .error (.new "no secret keys found")

/-- The passphrase `pw`. -/
def demoPassword : GoString := [112, 119]

/-- The time stamp `2024`. -/
def demoNow : GoString := [50, 48, 50, 52]

/-- The envelope `MakeKey` leaves for `demoKey` under `demoPassword`. -/
def demoEnvelope : Option (GoString × List Byte) :=
  some (demoPassword, keyFileData demoAge demoNow demoKey.ageIdentity)

/-- The stand-in age library with another parser: every plaintext byte is one
    identity, an X25519 identity when the byte is even and a plugin identity
    when it is odd; an empty plaintext holds no key. -/
def demoAgeMulti : AgeLib (Option (GoString × List Byte)) DemoWriter :=
  { demoAge with
    ParseIdentities := fun d =>
      if d.isEmpty then .error (.new "no secret keys found")
      else .ok (d.map (fun b =>
        if b.val % 2 = 0 then Identity.x25519 ⟨[b]⟩ else Identity.other "*plugin.Identity")) }

/-! ## Preferences: `IsValidHexColour` -/

/-- The test of the loop body of `IsValidHexColour` (preferences.go 127): the
    byte `c` is none of `0`-`9`, `A`-`F`, `a`-`f`. -/
def notHexDigit (c : Byte) : Bool :=
  (c < 48 || c > 57) && (c < 65 || c > 70) && (c < 97 || c > 102)

/-- The loop `for i := 1; i < 7; i++` of `IsValidHexColour`, by the number of
    rounds still to run and the index `i`. -/
def hexColourLoop (colour : GoString) : Nat → Nat → Bool
  | 0, _ => true
  | n + 1, i => if notHexDigit (colour.getD i 0) then false else hexColourLoop colour n (i + 1)

/-- The function `IsValidHexColour` (preferences.go 118-132). -/
def IsValidHexColour (colour : GoString) : Bool :=
  if colour = [] then true
  else if colour.length ≠ 7 || colour.getD 0 0 ≠ 35 then false
  else hexColourLoop colour 6 1

/-- The bytes of `0123456789ABCDEFabcdef`. -/
def hexDigits : List Byte :=
  [48, 49, 50, 51, 52, 53, 54, 55, 56, 57, 65, 66, 67, 68, 69, 70, 97, 98, 99, 100, 101, 102]

/-! ## Agent client -/

/-- Modelled from the spec: the record `Session` of the agent (`id`, `vault`,
    `key`, `created`, `lifetime`); its Go declaration is not in client.go.  The
    key is given by its identity and is `none` for a nil pointer. -/
structure Session where
  ID : GoString
  Vault : GoString
  Key : Option X25519Identity
  Created : Int
  Lifetime : Int
  deriving DecidableEq

/-- The constants of the agent protocol used by client.go; they are declared
    outside client.go. -/
structure AgentConsts where
  SessionExtension : GoString
  TypeExtension : GoString
  SessionActionList : Byte
  SessionActionLock : Byte
  SessionActionKey : Byte
  SessionActionUnlock : Byte

/-- The `encoding/json` calls of client.go. -/
structure AgentJSON where
  /-- The call `json.Marshal(session)`. -/
  MarshalSession : Session → Except GoError (List Byte)
  /-- The call `json.Unmarshal(response, &sessions)` on an empty slice: the
      slice afterwards and the error. -/
  UnmarshalSessions : List Byte → List Session × Option GoError
  /-- The call `json.Unmarshal(response, key)` on an empty key: the identity
      of the key afterwards and the error. -/
  UnmarshalKey : List Byte → Option X25519Identity × Option GoError

/-- The method `Extension(extensionType, contents)` of `c.sshclient`: the
    response and the error. -/
abbrev ExtensionCall := GoString → List Byte → List Byte × Option GoError

/-- One call of `c.sshclient.Extension`: the extension name and the payload. -/
structure Sent where
  extensionType : GoString
  contents : List Byte
  deriving DecidableEq

/-- The error `errors.New(s)` for a Go string `s`. -/
structure TextError where
  msg : GoString
  deriving DecidableEq

/-- The method `client.Sessions` (client.go 80-91): the two return values
    and the extension calls made. -/
def client.Sessions (C : AgentConsts) (J : AgentJSON) (sshclient : ExtensionCall) :
    (Option (List Session) × Option GoError) × List Sent :=
  let request := [C.SessionActionList]
  match sshclient C.SessionExtension request with
  | (_, some err) => ((none, some err), [⟨C.SessionExtension, request⟩])
  | (response, none) =>
    ((some (J.UnmarshalSessions response).1, (J.UnmarshalSessions response).2),
      [⟨C.SessionExtension, request⟩])

/-- The method `client.Lock` (client.go 94-103): the returned error and the
    extension calls made. -/
def client.Lock (C : AgentConsts) (sshclient : ExtensionCall) (vaultName : GoString) :
    Option TextError × List Sent :=
  let request := [C.SessionActionLock] ++ vaultName
  match sshclient C.SessionExtension request with
  | (response, some _) => (some ⟨response⟩, [⟨C.SessionExtension, request⟩])
  | (_, none) => (none, [⟨C.SessionExtension, request⟩])

/-- The method `client.Key` (client.go 106-127): the returned key (`none` for
    a nil pointer, otherwise its identity, itself `none` while unset), the
    error, and the extension calls made. -/
def client.Key (C : AgentConsts) (J : AgentJSON) (sshclient : ExtensionCall)
    (vaultName sessionID : GoString) :
    (Option (Option X25519Identity) × Option GoError) × List Sent :=
  let session : Session := ⟨sessionID, vaultName, none, 0, 0⟩
  match J.MarshalSession session with
  | .error err => ((none, some err), [])
  | .ok payload =>
    let request := [C.SessionActionKey] ++ payload
    match sshclient C.SessionExtension request with
    | (_, some err) => ((none, some err), [⟨C.SessionExtension, request⟩])
    | (response, none) =>
      ((some (J.UnmarshalKey response).1, (J.UnmarshalKey response).2),
        [⟨C.SessionExtension, request⟩])

/-- The method `client.Unlock` (client.go 130-149): the session id, the
    error, and the extension calls made. -/
def client.Unlock (C : AgentConsts) (J : AgentJSON) (sshclient : ExtensionCall)
    (vaultName : GoString) (key : Option X25519Identity) (lifetime : Int) :
    (GoString × Option GoError) × List Sent :=
  let session : Session := ⟨[], vaultName, key, 0, lifetime⟩
  match J.MarshalSession session with
  | .error err => (([], some err), [])
  | .ok payload =>
    let request := [C.SessionActionUnlock] ++ payload
    match sshclient C.SessionExtension request with
    | (_, some err) => (([], some err), [⟨C.SessionExtension, request⟩])
    | (response, none) => ((response, none), [⟨C.SessionExtension, request⟩])

/-- Protocol constants for evaluation: extension names `s` and `t`, action
    codes 1 to 4. -/
def demoConsts : AgentConsts := ⟨[115], [116], 1, 2, 3, 4⟩

/-- A stand-in for the JSON calls: a session is written as its vault name, a
    `0` and its id; nothing is read back. -/
def demoJSON : AgentJSON where
  MarshalSession := fun s => .ok (s.Vault ++ [0] ++ s.ID)
  UnmarshalSessions := fun _ => ([], none)
  UnmarshalKey := fun _ => (none, none)

/-- An agent connection that fails every `Lock` of the vault `v` with the
    response text `no` and accepts every other request with an empty
    response. -/
def demoExtension : ExtensionCall := fun _ contents =>
  if contents = [2, 118] then ([110, 111], some (.new "agent: generic extension failure"))
  else ([], none)

/-! ## Session manager of the agent -/

/-- Modelled from the spec: a session held by the agent (spec 3), with its id,
    vault, key, creation time and lifetime, `none` for an unbounded one.  The
    server side of the agent is not among the sources. -/
structure AgentSession where
  id : Nat
  vault : GoString
  key : Usm.Key
  created : Nat
  lifetime : Option Nat
  deriving DecidableEq

/-- Modelled from the spec: the state of the session manager (spec 4.3), the
    sessions it holds and the next id to issue. -/
structure SessionStore where
  sessions : List AgentSession
  nextID : Nat
  deriving DecidableEq

/-- Modelled from the spec: a session with a bounded lifetime is expired when
    `now - created > lifetime` (spec 3). -/
def AgentSession.expired (now : Nat) (s : AgentSession) : Bool :=
  match s.lifetime with
  | none => false
  | some l => decide (now - s.created > l)

/-- Modelled from the spec: the error class of a session that is not found
    or expired (spec 4.3, 7). -/
def sessionNotFound : GoError := .new "session not found"

/-- Modelled from the spec: `Unlock(vault, key, lifetime)` creates a session
    under a fresh id and returns the id; a lifetime of zero means unbounded
    (spec 4.3). -/
def SessionStore.Unlock (st : SessionStore) (vault : GoString) (key : Usm.Key)
    (lifetime now : Nat) : Nat × SessionStore :=
  (st.nextID,
    ⟨st.sessions ++ [⟨st.nextID, vault, key, now, if lifetime = 0 then none else some lifetime⟩],
      st.nextID + 1⟩)

/-- Modelled from the spec: `Lock(vault)` removes every session whose vault
    matches (spec 4.3). -/
def SessionStore.Lock (st : SessionStore) (vault : GoString) : SessionStore :=
  ⟨st.sessions.filter (fun s => s.vault != vault), st.nextID⟩

/-- Modelled from the spec: `Sessions()` returns id and vault of every session
    that is not expired (spec 4.3). -/
def SessionStore.Sessions (st : SessionStore) (now : Nat) : List (Nat × GoString) :=
  (st.sessions.filter (fun s => !s.expired now)).map (fun s => (s.id, s.vault))

/-- Modelled from the spec: `Key(vault, id)` returns the key of the matching
    session that is not expired and fails with the not-found error otherwise
    (spec 4.3). -/
def SessionStore.Key (st : SessionStore) (vault : GoString) (id now : Nat) :
    Except GoError Usm.Key :=
  match st.sessions.find? (fun s => s.id == id && s.vault == vault && !s.expired now) with
  | some s => .ok s.key
  | none => .error sessionNotFound

/-! ## Have I Been Pwned lookup: `hibp` -/

/-- The hash `crypto/sha1`: the digest of the bytes written has 20 bytes, and
    writing to the hash returns no error. -/
structure Sha1 where
  Sum : GoString → List Byte
  WriteString : GoString → Option GoError
  size : ∀ p, (Sum p).length = 20
  write_nil : ∀ p, WriteString p = none

/-- The digit `n` of `0123456789abcdef`. -/
def hexDigitLower (n : Nat) : Byte :=
  if n < 10 then Fin.ofNat (48 + n) else Fin.ofNat (87 + n)

/-- The function `hex.Encode`: two lower-case hex digits per byte. -/
def hexEncode : List Byte → List Byte
  | [] => []
  | b :: t => hexDigitLower (b.val / 16) :: hexDigitLower (b.val % 16) :: hexEncode t

/-- The function `bytes.ToUpper` on ASCII text. -/
def bytesToUpper (s : List Byte) : List Byte :=
  s.map (fun b => if 97 ≤ b.val ∧ b.val ≤ 122 then Fin.ofNat (b.val - 32) else b)

/-- The value `phu` of `hibp`: the SHA-1 of the password in upper-case hex. -/
def passwordHashUpper (H : Sha1) (password : GoString) : List Byte :=
  bytesToUpper (hexEncode (H.Sum password))

/-- The text of `apiURL` before its `%s`:
    `https://api.pwnedpasswords.com/range/`. -/
def apiURL : GoString :=
  [104, 116, 116, 112, 115, 58, 47, 47, 97, 112, 105, 46, 112, 119, 110, 101, 100, 112, 97,
   115, 115, 119, 111, 114, 100, 115, 46, 99, 111, 109, 47, 114, 97, 110, 103, 101, 47]

/-- A `context.Context`, told apart by a number. -/
structure Context where
  id : Nat
  deriving DecidableEq

/-- A `*http.Request`: method, URL, header lines and context. -/
structure Request where
  Method : String
  URL : GoString
  Header : List (String × String)
  ctx : Context
  deriving DecidableEq

/-- A `*http.Response` by its body: the bytes the body delivers and the
    error, other than `io.EOF`, it ends with. -/
structure Response where
  Body : List Byte
  BodyErr : Option GoError
  deriving DecidableEq

/-- The function `http.NewRequestWithContext` for a valid method and a URL
    that parses: it fails on a nil context only. -/
def NewRequestWithContext (ctx : Option Context) (method : String) (url : GoString) :
    Except GoError Request :=
  match ctx with
  | none => .error (.new "net/http: nil Context")
  | some c => .ok ⟨method, url, [], c⟩

/-- The size `bufio.MaxScanTokenSize`. -/
def maxScanTokenSize : Nat := 64 * 1024

/-- The error `bufio.ErrTooLong`. -/
def ErrTooLong : GoError := .new "bufio.Scanner: token too long"

/-- The input cut at each newline; `cur` holds the bytes of the line begun.
    Bytes behind the last newline form a last line unless there are none. -/
def splitLines : List Byte → List Byte → List (List Byte)
  | [], cur => if cur.isEmpty then [] else [cur]
  | b :: rest, cur => if b = 10 then cur :: splitLines rest [] else splitLines rest (cur ++ [b])

/-- The function `dropCR` of `bufio`: a line without its trailing `\r`. -/
def dropCR (line : List Byte) : List Byte :=
  if line.getLast? = some 13 then line.dropLast else line

/-- The lines a `bufio.Scanner` with `bufio.ScanLines` delivers and its
    `Err()`: a line that does not fit the buffer of `maxScanTokenSize` bytes
    together with its newline ends the scan with `ErrTooLong`. -/
def scanLines (r : Response) : List (List Byte) × Option GoError :=
  let raw := splitLines r.Body []
  let fit := raw.takeWhile (fun l => decide (l.length < maxScanTokenSize))
  (fit.map dropCR, if fit.length < raw.length then some ErrTooLong else r.BodyErr)

/-- The slice `scanner.Bytes()`: the line, and the bytes of the scanner's
    buffer behind the line up to the capacity of the slice. -/
structure Token where
  line : List Byte
  spare : List Byte
  deriving DecidableEq

/-- The tokens of the lines; `spare i` is what lies behind line `i` in the
    buffer. -/
def mkTokens (spare : Nat → List Byte) : Nat → List (List Byte) → List Token
  | _, [] => []
  | i, l :: rest => ⟨l, spare i⟩ :: mkTokens spare (i + 1) rest

/-- The slice expression `line[0:high]`: in range up to the capacity. -/
def Token.sliceTo (t : Token) (high : Nat) : Option (List Byte) :=
  if high ≤ t.line.length + t.spare.length then some ((t.line ++ t.spare).take high) else none

/-- The slice expression `line[low:]`: in range up to the length. -/
def Token.sliceFrom (t : Token) (low : Nat) : Option (List Byte) :=
  if low ≤ t.line.length then some (t.line.drop low) else none

/-- The value of a non-empty string of decimal digits. -/
def digitsValue : List Byte → Option Nat
  | [] => none
  | s => if s.all (fun b => decide (48 ≤ b.val ∧ b.val ≤ 57))
      then some (s.foldl (fun n b => 10 * n + (b.val - 48)) 0) else none

/-- The function `strconv.Atoi` with a 64-bit `int`: an optional sign and
    decimal digits; a syntax error gives 0, a value out of range gives the
    nearest bound, each with an error (whose text leaves out the input). -/
def Atoi (s : GoString) : Int × Option GoError :=
  let neg := s.head? = some 45
  let body := if s.head? = some 45 ∨ s.head? = some 43 then s.tail else s
  match digitsValue body with
  | none => (0, some (.wrap "strconv.Atoi: parsing: invalid syntax" (.new "invalid syntax")))
  | some n =>
    if neg then
      if n ≤ 2 ^ 63 then (-(n : Int), none)
      else (-(2 ^ 63 : Int),
        some (.wrap "strconv.Atoi: parsing: value out of range" (.new "value out of range")))
    else
      if n < 2 ^ 63 then ((n : Int), none)
      else ((2 ^ 63 - 1 : Int),
        some (.wrap "strconv.Atoi: parsing: value out of range" (.new "value out of range")))

/-- The loop over the scanned lines of `hibp` and the check of
    `scanner.Err()` behind it (hibp.go 88-100). -/
def hibpScan (suffix : List Byte) (scanErr : Option GoError) :
    List Token → Outcome (Bool × Int × Option GoError)
  | [] => .ret (false, 0, scanErr)
  | t :: rest =>
    match t.sliceTo 35 with
    | none => .panic "runtime error: slice bounds out of range"
    | some head =>
      if suffix = head then
        match t.sliceFrom 36 with
        | none => .panic "runtime error: slice bounds out of range"
        | some count => .ret (true, (Atoi count).1, (Atoi count).2)
      else hibpScan suffix scanErr rest

/-- What `hibp` returns or how it panics, and the requests it hands to
    `c.Do`. -/
structure HibpRun where
  out : Outcome (Bool × Int × Option GoError)
  sent : List Request
  deriving DecidableEq

/-- The function `hibp` (hibp.go 58-101).  `c` is the method `c.Do` and `spare`
    the bytes behind each scanned line in the scanner's buffer. -/
def hibp (H : Sha1) (spare : Nat → List Byte) (ctx : Option Context)
    (c : Request → Except GoError Response) (password : GoString) : HibpRun :=
  match H.WriteString password with
  | some err => ⟨.ret (false, 0, some (errorfW "failed to write password to hash: " (some err))), []⟩
  | none =>
    let phu := passwordHashUpper H password
    match NewRequestWithContext ctx "GET" (apiURL ++ phu.take 5) with
    | .error err => ⟨.ret (false, 0, some err), []⟩
    | .ok req =>
      let req := { req with Header := req.Header ++ [("Add-Padding", "true")] }
      match c req with
      | .error err => ⟨.ret (false, 0, some err), [req]⟩
      | .ok resp =>
        ⟨hibpScan (phu.drop 5) (scanLines resp).2 (mkTokens spare 0 (scanLines resp).1), [req]⟩

/-- A stand-in for SHA-1: the first 20 bytes of the password followed by
    zeros. -/
def demoSha1 : Sha1 where
  Sum := fun p => (p ++ List.replicate 20 0).take 20
  WriteString := fun _ => none
  size := by intro p; simp
  write_nil := fun _ => rfl

/-- A server whose answer holds the entries of the suffix `0...0` (35 digits)
    with count 7 and `1...1` with count 12, each closed by `\r\n`. -/
def demoPwned : Request → Except GoError Response := fun _ =>
  .ok ⟨List.replicate 35 48 ++ [58, 55, 13, 10] ++ (List.replicate 35 49 ++ [58, 49, 50, 13, 10]),
    none⟩

/-- The bytes of `0123456789ABCDEF`. -/
def upperHexDigits : List Byte :=
  [48, 49, 50, 51, 52, 53, 54, 55, 56, 57, 65, 66, 67, 68, 69, 70]

/-- The number a string of decimal digits stands for. -/
def decimalValue (digits : List Byte) : Nat :=
  digits.foldl (fun n b => 10 * n + (b.val - 48)) 0

/-- A line of the range answer, `<suffix>:<count>`, for a pair of suffix and
    count. -/
def rangeLine (e : List Byte × List Byte) : List Byte :=
  e.1 ++ [58] ++ e.2

/-- The pair is a hash suffix of 35 upper-case hex characters with a count of
    one or more decimal digits. -/
def RangeEntry (e : List Byte × List Byte) : Prop :=
  e.1.length = 35 ∧ (∀ b ∈ e.1, b ∈ upperHexDigits)
    ∧ e.2 ≠ [] ∧ ∀ b ∈ e.2, 48 ≤ b.val ∧ b.val ≤ 57

/-- The body made of the lines of the entries, each closed by `eol`. -/
def rangeBody (eol : List Byte) (entries : List (List Byte × List Byte)) : List Byte :=
  (entries.map (fun e => rangeLine e ++ eol)).flatten

/-- A server whose answer is the one entry of the suffix `0...0` (35 digits)
    with the count 9223372036854775808, closed by `\r\n`. -/
def demoPwnedBig : Request → Except GoError Response := fun _ =>
  .ok ⟨rangeBody [13, 10]
    [(List.replicate 35 48,
      [57, 50, 50, 51, 51, 55, 50, 48, 51, 54, 56, 53, 52, 55, 55, 53, 56, 48, 56])], none⟩

instance (e : List Byte × List Byte) : Decidable (RangeEntry e) := by
  unfold RangeEntry
  infer_instance

/-- The entries of the answer of `demoPwned`. -/
def demoEntries : List (List Byte × List Byte) :=
  [(List.replicate 35 48, [55]), (List.replicate 35 49, [49, 50])]

/-- The entry of the answer of `demoPwnedBig`. -/
def demoBigEntry : List Byte × List Byte :=
  (List.replicate 35 48,
    [57, 50, 50, 51, 51, 55, 50, 48, 51, 54, 56, 53, 52, 55, 55, 53, 56, 48, 56])

/-! ## Configuration manager -/

mutual
/-- A Go value held in an `interface{}` of the configuration content: nil,
    `bool`, `int`, `float64` (whole numbers only, as they arise from integers),
    `string`, or a `map[string]interface{}`.  A JSON text is given by the value
    it denotes, its numbers being `int`. -/
inductive Val where
  | null
  | bool (b : Bool)
  | int (n : Int)
  | float64 (v : Int)
  | string (s : GoString)
  | map (m : Fields)
/-- The entries of a `map[string]interface{}`. -/
inductive Fields where
  | nil
  | cons (key : String) (val : Val) (rest : Fields)
end

/-- The index expression `m[key]`: nil when the key is missing. -/
def Fields.get : Fields → String → Val
  | .nil, _ => .null
  | .cons k v rest, key => if k = key then v else rest.get key

/-- The type assertion `.(map[string]interface{})`. -/
def Val.asMap : Val → Option Fields
  | .map m => some m
  | _ => none

/-- The type assertion `.(bool)`. -/
def Val.asBool : Val → Option Bool
  | .bool b => some b
  | _ => none

/-- The type assertion `.(float64)`. -/
def Val.asFloat64 : Val → Option Int
  | .float64 v => some v
  | _ => none

/-- The type assertion `.(string)`. -/
def Val.asString : Val → Option GoString
  | .string s => some s
  | _ => none

/-- The number of binary digits of `a`, in at most `fuel` steps. -/
def bitLengthAux : Nat → Nat → Nat
  | 0, _ => 0
  | fuel + 1, a => if a = 0 then 0 else bitLengthAux fuel (a / 2) + 1

/-- The number of binary digits of `a`. -/
def bitLength (a : Nat) : Nat := bitLengthAux a a

/-- The `float64` nearest to an integer (ties to even): exact up to 53 bits. -/
def float64OfInt (n : Int) : Int :=
  let a := n.natAbs
  let k := bitLength a
  if k ≤ 53 then n
  else
    let sh := k - 53
    let q := a / 2 ^ sh
    let r := a % 2 ^ sh
    let half := 2 ^ (sh - 1)
    let q₁ := if r > half ∨ (r = half ∧ q % 2 = 1) then q + 1 else q
    if n < 0 then -((q₁ * 2 ^ sh : Nat) : Int) else ((q₁ * 2 ^ sh : Nat) : Int)

/-- The conversion `int(v)` of a whole `float64` on a 64-bit platform; outside
    the range of `int` the result is the one of amd64. -/
def intOfFloat64 (v : Int) : Int :=
  if -(2 ^ 63) ≤ v ∧ v < 2 ^ 63 then v else -(2 ^ 63)

/-- A continuation byte of UTF-8. -/
def isCont (b : Byte) : Bool := 128 ≤ b.val && b.val ≤ 191

/-- The number of bytes of the UTF-8 sequence at the head of the string, 0 when
    the head is no valid sequence (the acceptance ranges of `unicode/utf8`). -/
def utf8Len : List Byte → Nat
  | [] => 0
  | b₀ :: rest =>
    if b₀.val < 128 then 1
    else match rest with
      | [] => 0
      | b₁ :: rest₁ =>
        if 194 ≤ b₀.val ∧ b₀.val ≤ 223 then (if isCont b₁ then 2 else 0)
        else match rest₁ with
          | [] => 0
          | b₂ :: rest₂ =>
            if b₀.val = 224 then (if 160 ≤ b₁.val ∧ b₁.val ≤ 191 ∧ isCont b₂ then 3 else 0)
            else if b₀.val = 237 then (if 128 ≤ b₁.val ∧ b₁.val ≤ 159 ∧ isCont b₂ then 3 else 0)
            else if 225 ≤ b₀.val ∧ b₀.val ≤ 239 then (if isCont b₁ ∧ isCont b₂ then 3 else 0)
            else match rest₂ with
              | [] => 0
              | b₃ :: _ =>
                if b₀.val = 240 then
                  (if 144 ≤ b₁.val ∧ b₁.val ≤ 191 ∧ isCont b₂ ∧ isCont b₃ then 4 else 0)
                else if b₀.val = 244 then
                  (if 128 ≤ b₁.val ∧ b₁.val ≤ 143 ∧ isCont b₂ ∧ isCont b₃ then 4 else 0)
                else if 241 ≤ b₀.val ∧ b₀.val ≤ 243 then
                  (if isCont b₁ ∧ isCont b₂ ∧ isCont b₃ then 4 else 0)
                else 0

/-- A string as `json.Marshal` writes it and `json.Unmarshal` reads it back:
    coerced to valid UTF-8, each invalid byte replaced by U+FFFD.  `fuel`
    bounds the number of steps by the length of the string. -/
def coerceUTF8 : Nat → List Byte → List Byte
  | 0, _ => []
  | _, [] => []
  | fuel + 1, b :: rest =>
    match utf8Len (b :: rest) with
    | 0 => [239, 191, 189] ++ coerceUTF8 fuel rest
    | n + 1 => (b :: rest).take (n + 1) ++ coerceUTF8 fuel ((b :: rest).drop (n + 1))

/-- The string is valid UTF-8. -/
def ValidUTF8 (s : GoString) : Prop := coerceUTF8 s.length s = s

mutual
/-- The JSON text `json.Marshal` writes for a value, as the value it denotes:
    whole numbers print as integers and strings are coerced to valid UTF-8. -/
def jsonMarshal : Val → Val
  | .null => .null
  | .bool b => .bool b
  | .int n => .int n
  | .float64 v => .int v
  | .string s => .string (coerceUTF8 s.length s)
  | .map m => .map (jsonMarshalFields m)
/-- The entries of a map under `jsonMarshal`. -/
def jsonMarshalFields : Fields → Fields
  | .nil => .nil
  | .cons k v rest => .cons k (jsonMarshal v) (jsonMarshalFields rest)
end

mutual
/-- The value `json.Unmarshal` stores in an `interface{}` for a JSON text:
    every number becomes a `float64`. -/
def jsonUnmarshal : Val → Val
  | .null => .null
  | .bool b => .bool b
  | .int n => .float64 (float64OfInt n)
  | .float64 v => .float64 v
  | .string s => .string s
  | .map m => .map (jsonUnmarshalFields m)
/-- The entries of an object under `jsonUnmarshal`. -/
def jsonUnmarshalFields : Fields → Fields
  | .nil => .nil
  | .cons k v rest => .cons k (jsonUnmarshal v) (jsonUnmarshalFields rest)
end

/-- The call `json.Unmarshal(cfg.Content, &content)` for a
    `map[string]interface{}`: an object gives its entries, `null` leaves the
    map nil, any other text is an error. -/
def jsonUnmarshalMap : Val → Except GoError Fields
  | .map m => .ok (jsonUnmarshalFields m)
  | .null => .ok .nil
  | _ => .error (.new
      "json: cannot unmarshal value into Go value of type map[string]interface {}")

/-- The struct `FaviconDownloaderPreferences`. -/
structure FaviconDownloaderPreferences where
  Disabled : Bool
  deriving DecidableEq

/-- The struct `PassphrasePasswordPreferences`. -/
structure PassphrasePasswordPreferences where
  DefaultLength : Int
  MaxLength : Int
  MinLength : Int
  deriving DecidableEq

/-- The struct `PinPasswordPreferences`. -/
structure PinPasswordPreferences where
  DefaultLength : Int
  MaxLength : Int
  MinLength : Int
  deriving DecidableEq

/-- The struct `RandomPasswordPreferences`.  The type `Format` is declared
    outside the sources; it is an integer type, taken here as `int`. -/
structure RandomPasswordPreferences where
  DefaultLength : Int
  DefaultFormat : Int
  MaxLength : Int
  MinLength : Int
  deriving DecidableEq

/-- The struct `PasswordPreferences`. -/
structure PasswordPreferences where
  Passphrase : PassphrasePasswordPreferences
  Pin : PinPasswordPreferences
  Random : RandomPasswordPreferences
  deriving DecidableEq

/-- The struct `TOTPPreferences`; `TOTPHash` is a string type. -/
structure TOTPPreferences where
  Digits : Int
  Hash : GoString
  Interval : Int
  deriving DecidableEq

/-- The struct `ThemePreferences`. -/
structure ThemePreferences where
  DefaultColour : GoString
  deriving DecidableEq

/-- The struct `ToolbarPreferences`. -/
structure ToolbarPreferences where
  Show : Bool
  deriving DecidableEq

/-- The struct `Preferences`. -/
structure Preferences where
  FaviconDownloader : FaviconDownloaderPreferences
  Password : PasswordPreferences
  TOTP : TOTPPreferences
  Theme : ThemePreferences
  Toolbar : ToolbarPreferences
  deriving DecidableEq

/-- The struct `AppState`; `Modified` is a time, `Preferences` a pointer. -/
structure AppState where
  Modified : Int
  Preferences : Option Preferences
  deriving DecidableEq

/-- The constants of package `usm` that the default preferences use; they are
    declared outside the sources. -/
structure UsmConsts where
  PassphrasePasswordDefaultLength : Int
  PassphrasePasswordMaxLength : Int
  PassphrasePasswordMinLength : Int
  PinPasswordDefaultLength : Int
  PinPasswordMaxLength : Int
  PinPasswordMinLength : Int
  RandomPasswordDefaultLength : Int
  RandomPasswordDefaultFormat : Int
  RandomPasswordMaxLength : Int
  RandomPasswordMinLength : Int
  TOTPDigitsDefault : Int
  TOTPHashDefault : GoString
  TOTPIntervalDefault : Int

/-- The method `Manager.newDefaultPreferences` (config/preferences.go 11-49);
    `goos` is `runtime.GOOS`. -/
def Manager.newDefaultPreferences (K : UsmConsts) (goos : String) : Preferences :=
  let showToolbar := decide (goos = "darwin")
  { FaviconDownloader := { Disabled := false }
    Password :=
      { Passphrase :=
          { DefaultLength := K.PassphrasePasswordDefaultLength
            MaxLength := K.PassphrasePasswordMaxLength
            MinLength := K.PassphrasePasswordMinLength }
        Pin :=
          { DefaultLength := K.PinPasswordDefaultLength
            MaxLength := K.PinPasswordMaxLength
            MinLength := K.PinPasswordMinLength }
        Random :=
          { DefaultLength := K.RandomPasswordDefaultLength
            DefaultFormat := K.RandomPasswordDefaultFormat
            MaxLength := K.RandomPasswordMaxLength
            MinLength := K.RandomPasswordMinLength } }
    TOTP :=
      { Digits := K.TOTPDigitsDefault
        Hash := K.TOTPHashDefault
        Interval := K.TOTPIntervalDefault }
    Theme := { DefaultColour := [] }
    Toolbar := { Show := showToolbar } }

/-- The statement `if v, ok := m[key].(float64); ok { field = int(v) }`: the
    field afterwards. -/
def setInt (m : Fields) (key : String) (field : Int) : Int :=
  match (m.get key).asFloat64 with
  | some v => intOfFloat64 v
  | none => field

/-- The statement `if v, ok := m[key].(bool); ok { field = v }`. -/
def setBool (m : Fields) (key : String) (field : Bool) : Bool :=
  match (m.get key).asBool with
  | some v => v
  | none => field

/-- The statement `if v, ok := m[key].(string); ok { field = v }`. -/
def setString (m : Fields) (key : String) (field : GoString) : GoString :=
  match (m.get key).asString with
  | some v => v
  | none => field

/-- The method `Manager.extractPreferences` (config/preferences.go 52-135):
    the default preferences, each field overwritten by the entry of `data` of
    its name when that entry has the expected type. -/
def Manager.extractPreferences (K : UsmConsts) (goos : String) (data : Fields) : Preferences :=
  let prefs := Manager.newDefaultPreferences K goos
  let favicon : FaviconDownloaderPreferences :=
    match (data.get "favicon_downloader").asMap with
    | some fd => { Disabled := setBool fd "disabled" prefs.FaviconDownloader.Disabled }
    | none => prefs.FaviconDownloader
  let password : PasswordPreferences :=
    match (data.get "password").asMap with
    | some pw =>
      { Passphrase :=
          match (pw.get "passphrase").asMap with
          | some pp =>
            { DefaultLength := setInt pp "default_length" prefs.Password.Passphrase.DefaultLength
              MaxLength := setInt pp "max_length" prefs.Password.Passphrase.MaxLength
              MinLength := setInt pp "min_length" prefs.Password.Passphrase.MinLength }
          | none => prefs.Password.Passphrase
        Pin :=
          match (pw.get "pin").asMap with
          | some pin =>
            { DefaultLength := setInt pin "default_length" prefs.Password.Pin.DefaultLength
              MaxLength := setInt pin "max_length" prefs.Password.Pin.MaxLength
              MinLength := setInt pin "min_length" prefs.Password.Pin.MinLength }
          | none => prefs.Password.Pin
        Random :=
          match (pw.get "random").asMap with
          | some rnd =>
            { DefaultLength := setInt rnd "default_length" prefs.Password.Random.DefaultLength
              DefaultFormat := setInt rnd "default_format" prefs.Password.Random.DefaultFormat
              MaxLength := setInt rnd "max_length" prefs.Password.Random.MaxLength
              MinLength := setInt rnd "min_length" prefs.Password.Random.MinLength }
          | none => prefs.Password.Random }
    | none => prefs.Password
  let totp : TOTPPreferences :=
    match (data.get "totp").asMap with
    | some totp =>
      { Digits := setInt totp "digits" prefs.TOTP.Digits
        Hash := setString totp "hash" prefs.TOTP.Hash
        Interval := setInt totp "interval" prefs.TOTP.Interval }
    | none => prefs.TOTP
  let theme : ThemePreferences :=
    match (data.get "theme").asMap with
    | some theme => { DefaultColour := setString theme "default_colour" prefs.Theme.DefaultColour }
    | none => prefs.Theme
  let toolbar : ToolbarPreferences :=
    match (data.get "toolbar").asMap with
    | some toolbar => { Show := setBool toolbar "show" prefs.Toolbar.Show }
    | none => prefs.Toolbar
  { FaviconDownloader := favicon, Password := password, TOTP := totp, Theme := theme,
    Toolbar := toolbar }

/-- The method `Manager.preferencesToMap` (config/preferences.go 138-173). -/
def Manager.preferencesToMap (prefs : Preferences) : Fields :=
  .cons "favicon_downloader" (.map
    (.cons "disabled" (.bool prefs.FaviconDownloader.Disabled) .nil))
  (.cons "password" (.map
    (.cons "passphrase" (.map
      (.cons "default_length" (.int prefs.Password.Passphrase.DefaultLength)
      (.cons "max_length" (.int prefs.Password.Passphrase.MaxLength)
      (.cons "min_length" (.int prefs.Password.Passphrase.MinLength) .nil))))
    (.cons "pin" (.map
      (.cons "default_length" (.int prefs.Password.Pin.DefaultLength)
      (.cons "max_length" (.int prefs.Password.Pin.MaxLength)
      (.cons "min_length" (.int prefs.Password.Pin.MinLength) .nil))))
    (.cons "random" (.map
      (.cons "default_length" (.int prefs.Password.Random.DefaultLength)
      (.cons "default_format" (.int prefs.Password.Random.DefaultFormat)
      (.cons "max_length" (.int prefs.Password.Random.MaxLength)
      (.cons "min_length" (.int prefs.Password.Random.MinLength) .nil)))))
    .nil))))
  (.cons "totp" (.map
    (.cons "digits" (.int prefs.TOTP.Digits)
    (.cons "hash" (.string prefs.TOTP.Hash)
    (.cons "interval" (.int prefs.TOTP.Interval) .nil))))
  (.cons "theme" (.map
    (.cons "default_colour" (.string prefs.Theme.DefaultColour) .nil))
  (.cons "toolbar" (.map
    (.cons "show" (.bool prefs.Toolbar.Show) .nil))
  .nil))))

/-- The method `Manager.extractAppState` (manager.go 145-154): the
    preferences it stores in `appState`. -/
def Manager.extractAppState (K : UsmConsts) (goos : String) (content : Fields) : Preferences :=
  match (content.get "preferences").asMap with
  | some prefs => Manager.extractPreferences K goos prefs
  | none => Manager.newDefaultPreferences K goos

/-- The method `Manager.appStateToContent` (manager.go 157-165). -/
def Manager.appStateToContent (appState : AppState) : Fields :=
  match appState.Preferences with
  | some prefs => .cons "preferences" (.map (Manager.preferencesToMap prefs)) .nil
  | none => .nil

/-- A `*viracochan.Config`: the JSON text `Content`, given by the value it
    denotes, and the time `Meta.Time`. -/
structure Config where
  Content : Val
  Time : Int

/-- The calls into `viracochan.Manager` for the id `app-state`; `σ` is the
    state of the versioned storage.  `Create` and `Update` take the content
    and return their error and the storage afterwards. -/
structure Viracochan (σ : Type) where
  GetLatest : σ → Except GoError Config
  Create : σ → Fields → Option GoError × σ
  Update : σ → Fields → Option GoError × σ

/-- What the configuration manager relies on from viracochan: after a
    successful `Create` or `Update` the latest version holds the JSON text of
    the content handed in. -/
structure StoreKeeps {σ : Type} (V : Viracochan σ) : Prop where
  create : ∀ s c s₁, V.Create s c = (none, s₁) →
    ∃ cfg, V.GetLatest s₁ = .ok cfg ∧ cfg.Content = jsonMarshal (.map c)
  update : ∀ s c s₁, V.Update s c = (none, s₁) →
    ∃ cfg, V.GetLatest s₁ = .ok cfg ∧ cfg.Content = jsonMarshal (.map c)

/-- The method `Manager.configExists` (manager.go 168-172). -/
def Manager.configExists {σ : Type} (V : Viracochan σ) (s : σ) : Bool × Option GoError :=
  match V.GetLatest s with
  | .ok _ => (true, none)
  | .error _ => (false, none)

/-- The method `Manager.LoadAppState` (manager.go 42-67); `now` is
    `time.Now().UTC()`. -/
def Manager.LoadAppState {σ : Type} (K : UsmConsts) (goos : String) (V : Viracochan σ)
    (now : Int) (s : σ) : Except GoError AppState :=
  match V.GetLatest s with
  | .error _ => .ok ⟨now, some (Manager.newDefaultPreferences K goos)⟩
  | .ok cfg =>
    match jsonUnmarshalMap cfg.Content with
    | .error err => .error (errorfW "failed to unmarshal content: " (some err))
    | .ok content => .ok ⟨cfg.Time, some (Manager.extractAppState K goos content)⟩

/-- The method `Manager.StoreAppState` (manager.go 70-93): the returned error
    and the storage afterwards. -/
def Manager.StoreAppState {σ : Type} (V : Viracochan σ) (s : σ) (appState : AppState) :
    Option GoError × σ :=
  let content := Manager.appStateToContent appState
  match Manager.configExists V s with
  | (_, some err) => (some (errorfW "failed to check config existence: " (some err)), s)
  | (isThere, none) =>
    match (if !isThere then V.Create s content else V.Update s content) with
    | (some err, s₁) => (some (errorfW "failed to store app state: " (some err)), s₁)
    | (none, s₁) => (none, s₁)

/-- The two files of `rootPath` that the migration touches: `usm.json` and
    `usm.json.backup`, each absent or with its bytes. -/
structure LegacyDir where
  config : Option (List Byte)
  backup : Option (List Byte)
  deriving DecidableEq

/-- The error of a file operation: the file does not exist
    (`os.IsNotExist`), or another error. -/
inductive FileError where
  | notExist
  | other (err : GoError)
  deriving DecidableEq

/-- The call `os.ReadFile(oldConfigPath)`; `fault` is an I/O error, if one
    occurs. -/
def osReadFile (fault : Option GoError) (dir : LegacyDir) : Except FileError (List Byte) :=
  match fault with
  | some err => .error (.other err)
  | none =>
    match dir.config with
    | none => .error .notExist
    | some data => .ok data

/-- The call `os.Rename(oldConfigPath, backupPath)`; `fault` is an I/O error,
    if one occurs. -/
def osRename (fault : Option GoError) (dir : LegacyDir) : Option GoError × LegacyDir :=
  match fault with
  | some err => (some err, dir)
  | none =>
    match dir.config with
    | none => (some (.new "rename usm.json usm.json.backup: no such file or directory"), dir)
    | some data => (none, ⟨none, some data⟩)

/-- The returned error of `MigrateExistingConfig`, the versioned storage and
    the two files afterwards. -/
structure MigrateResult (σ : Type) where
  err : Option GoError
  store : σ
  dir : LegacyDir

/-- The method `StorageAdapter.MigrateExistingConfig` (migration.go 14-60).
    `UnmarshalAppState` is the call `json.Unmarshal(data, &appState)` on a zero
    `AppState`, `readFault` and `renameFault` the I/O errors of the file
    operations, if any. -/
def StorageAdapter.MigrateExistingConfig {σ : Type} (K : UsmConsts) (goos : String)
    (V : Viracochan σ) (UnmarshalAppState : List Byte → Except GoError AppState)
    (readFault renameFault : Option GoError) (s : σ) (dir : LegacyDir) : MigrateResult σ :=
  match osReadFile readFault dir with
  | .error .notExist => ⟨none, s, dir⟩
  | .error (.other err) => ⟨some (errorfW "failed to read existing config: " (some err)), s, dir⟩
  | .ok data =>
    if (Manager.configExists V s).1 then
      ⟨none, s, (osRename renameFault dir).2⟩
    else
      match UnmarshalAppState data with
      | .error err => ⟨some (errorfW "failed to parse existing config: " (some err)), s, dir⟩
      | .ok appState =>
        let appState : AppState :=
          match appState.Preferences with
          | none => { appState with Preferences := some (Manager.newDefaultPreferences K goos) }
          | some _ => appState
        match Manager.StoreAppState V s appState with
        | (some err, s₁) =>
          ⟨some (errorfW "failed to store migrated config: " (some err)), s₁, dir⟩
        | (none, s₁) => ⟨none, s₁, (osRename renameFault dir).2⟩

/-- The integer is a Go `int` of 64 bits that a `float64`, hence a JSON number
    read into an `interface{}`, represents exactly. -/
def IntExact (n : Int) : Prop :=
  float64OfInt n = n ∧ -(2 ^ 63) ≤ n ∧ n < 2 ^ 63

/-- Every integer field of the preferences is exactly representable as a JSON
    number. -/
def Preferences.IntsExact (p : Preferences) : Prop :=
  IntExact p.Password.Passphrase.DefaultLength ∧ IntExact p.Password.Passphrase.MaxLength
    ∧ IntExact p.Password.Passphrase.MinLength
    ∧ IntExact p.Password.Pin.DefaultLength ∧ IntExact p.Password.Pin.MaxLength
    ∧ IntExact p.Password.Pin.MinLength
    ∧ IntExact p.Password.Random.DefaultLength ∧ IntExact p.Password.Random.DefaultFormat
    ∧ IntExact p.Password.Random.MaxLength ∧ IntExact p.Password.Random.MinLength
    ∧ IntExact p.TOTP.Digits ∧ IntExact p.TOTP.Interval

/-- Every string field of the preferences is valid UTF-8. -/
def Preferences.StringsValid (p : Preferences) : Prop :=
  ValidUTF8 p.TOTP.Hash ∧ ValidUTF8 p.Theme.DefaultColour

instance (n : Int) : Decidable (IntExact n) := by
  unfold IntExact
  infer_instance

instance (s : GoString) : Decidable (ValidUTF8 s) := by
  unfold ValidUTF8
  infer_instance

instance (p : Preferences) : Decidable p.IntsExact := by
  unfold Preferences.IntsExact
  infer_instance

instance (p : Preferences) : Decidable p.StringsValid := by
  unfold Preferences.StringsValid
  infer_instance

/-- Constants for evaluation. -/
def demoUsmConsts : UsmConsts :=
  ⟨4, 12, 2, 4, 10, 4, 16, 7, 64, 6, 6, [83, 72, 65, 49], 30⟩

/-- A versioned storage in memory: the versions of `app-state`, oldest first.
    `Create` needs an empty storage and `Update` a version to follow; the time
    of a version is its number. -/
def demoStore : Viracochan (List Config) where
  GetLatest := fun s =>
    match s.getLast? with
    | some cfg => .ok cfg
    | none => .error (.new "config not found")
  Create := fun s c =>
    if s.isEmpty then (none, s ++ [⟨jsonMarshal (.map c), s.length⟩])
    else (some (.new "config already exists"), s)
  Update := fun s c =>
    if s.isEmpty then (some (.new "config not found"), s)
    else (none, s ++ [⟨jsonMarshal (.map c), s.length⟩])

/-- Preferences with the theme colour `#4CAF50` and every other field zero, as
    the test of the migration reads them from its legacy file. -/
def demoPrefs : Preferences :=
  { FaviconDownloader := ⟨false⟩
    Password := ⟨⟨0, 0, 0⟩, ⟨0, 0, 0⟩, ⟨0, 0, 0, 0⟩⟩
    TOTP := ⟨0, [], 0⟩
    Theme := ⟨[35, 52, 67, 65, 70, 53, 48]⟩
    Toolbar := ⟨false⟩ }

/-- The preferences `demoPrefs` with the theme colour made of the one byte
    `0xff`. -/
def demoPrefsBadString : Preferences :=
  { demoPrefs with Theme := ⟨[255]⟩ }

/-- The preferences `demoPrefs` with 9007199254740993 TOTP digits. -/
def demoPrefsBigInt : Preferences :=
  { demoPrefs with TOTP := ⟨9007199254740993, [], 0⟩ }

/-- A stand-in for `json.Unmarshal(data, &appState)`: the one byte `1` reads
    as `demoPrefs`, `2` as `demoPrefsBigInt`, `3` as a state without
    preferences, anything else is no JSON. -/
def demoUnmarshalAppState : List Byte → Except GoError AppState := fun data =>
  if data = [1] then .ok ⟨1704067200, some demoPrefs⟩
  else if data = [2] then .ok ⟨1704067200, some demoPrefsBigInt⟩
  else if data = [3] then .ok ⟨1704067200, none⟩
  else .error (.new "invalid character looking for beginning of value")

/-! ## Browser messaging: `ListVaultHandler` -/

/-- The struct `Request` of package `messaging`, by the field that
    list_vault_handler.go reads; the struct is declared outside it. -/
structure messaging.Request where
  Action : Nat
  deriving DecidableEq

/-- The values of `res.Error`: an `*ActionHandlerMismatchError` with its two
    fields, or the error of the storage. -/
inductive messaging.Error where
  | ActionHandlerMismatchError (ReqAction HandlerAction : Nat)
  | storage (err : GoError)
  deriving DecidableEq

/-- The values of `res.Payload`: a `*ListVaultHandlerResponsePayload` with
    its field `Vaults`, or a payload of another type. -/
inductive messaging.Payload where
  | ListVaultHandlerResponsePayload (Vaults : List GoString)
  | other (raw : List Byte)
  deriving DecidableEq

/-- The struct `Response` of package `messaging`, by the fields that
    list_vault_handler.go writes; `none` is nil. -/
structure messaging.Response where
  Action : Nat
  Error : Option messaging.Error
  Payload : Option messaging.Payload
  deriving DecidableEq

/-- The field `Storage` of the handler, by what its method `Vaults()` returns
    at the call: `none` is a nil storage. -/
abbrev messaging.Storage := Option (List GoString × Option GoError)

/-- The response after `Serve`, or its panic, and the number of calls of
    `h.Storage.Vaults()`. -/
structure messaging.ServeRun where
  res : Outcome messaging.Response
  vaultsCalls : Nat
  deriving DecidableEq

/-- The method `ListVaultHandler.Serve` (list_vault_handler.go 24-37).
    `ListVaultAction` is the constant that `h.Action()` returns, declared
    outside the file.  A call of `Vaults()` on a nil storage panics. -/
def ListVaultHandler.Serve (ListVaultAction : Nat) (Storage : messaging.Storage)
    (res : messaging.Response) (req : messaging.Request) : messaging.ServeRun :=
  if req.Action ≠ ListVaultAction then
    ⟨.ret { res with
      Error := some (.ActionHandlerMismatchError req.Action ListVaultAction) }, 0⟩
  else
    match Storage with
    | none => ⟨.panic "runtime error: invalid memory address or nil pointer dereference", 0⟩
    | some (_, some err) =>
      ⟨.ret { res with Action := ListVaultAction, Error := some (.storage err) }, 1⟩
    | some (vaults, none) =>
      ⟨.ret { res with
        Action := ListVaultAction
        Payload := some (.ListVaultHandlerResponsePayload vaults) }, 1⟩

/-! ## Package `usm`: default preferences -/

/-- The function `newDefaultPreferences` of package `usm`
    (usm/preferences.go 5-43); `goos` is `runtime.GOOS`. -/
def newDefaultPreferences (K : UsmConsts) (goos : String) : Preferences :=
  let showToolbar := decide (goos ≠ "darwin")
  { FaviconDownloader := { Disabled := false }
    Password :=
      { Passphrase :=
          { DefaultLength := K.PassphrasePasswordDefaultLength
            MaxLength := K.PassphrasePasswordMaxLength
            MinLength := K.PassphrasePasswordMinLength }
        Pin :=
          { DefaultLength := K.PinPasswordDefaultLength
            MaxLength := K.PinPasswordMaxLength
            MinLength := K.PinPasswordMinLength }
        Random :=
          { DefaultLength := K.RandomPasswordDefaultLength
            DefaultFormat := K.RandomPasswordDefaultFormat
            MaxLength := K.RandomPasswordMaxLength
            MinLength := K.RandomPasswordMinLength } }
    TOTP :=
      { Digits := K.TOTPDigitsDefault
        Hash := K.TOTPHashDefault
        Interval := K.TOTPIntervalDefault }
    Theme := { DefaultColour := [] }
    Toolbar := { Show := showToolbar } }

/-! ## UI colours: `parseHexColour` and `convertColorToNRGBA` -/

/-- The struct `color.NRGBA`. -/
structure NRGBA where
  R : Byte
  G : Byte
  B : Byte
  A : Byte
  deriving DecidableEq

/-- A non-nil `color.Color` by dynamic type: a `color.NRGBA`, or a value of
    another type, named as Go prints it.  The interface value is an
    `Option Color`, `none` being nil. -/
inductive Color where
  | NRGBA (c : Usm.NRGBA)
  | other (typeName : String)
  deriving DecidableEq

/-- The value of the byte `c` as a digit in `strconv.ParseUint`: `0`-`9`, or a
    letter of either case counted from 10; `lower(c)` is `c | 0x20`. -/
def digitVal (c : Byte) : Option Nat :=
  if 48 ≤ c.val ∧ c.val ≤ 57 then some (c.val - 48)
  else if 97 ≤ (c.val ||| 32) ∧ (c.val ||| 32) ≤ 122 then some ((c.val ||| 32) - 97 + 10)
  else none

/-- The digits of `strconv.ParseUint` read from the left in the given base,
    `none` on a byte that is no digit of the base. -/
def parseDigits (base : Nat) : List Byte → Nat → Option Nat
  | [], acc => some acc
  | c :: rest, acc =>
    match digitVal c with
    | some d => if d < base then parseDigits base rest (acc * base + d) else none
    | none => none

/-- The function `strconv.ParseUint(s, base, bitSize)` for a base from 2 to
    36 given explicitly: a syntax error gives 0, a value of more than
    `bitSize` bits gives the largest value, each with an error. -/
def ParseUint (s : GoString) (base bitSize : Nat) : Nat × Option GoError :=
  if s = [] then
    (0, some (.wrap "strconv.ParseUint: parsing: invalid syntax" (.new "invalid syntax")))
  else
    match parseDigits base s 0 with
    | none =>
      (0, some (.wrap "strconv.ParseUint: parsing: invalid syntax" (.new "invalid syntax")))
    | some n =>
      if n < 2 ^ bitSize then (n, none)
      else (2 ^ bitSize - 1,
        some (.wrap "strconv.ParseUint: parsing: value out of range" (.new "value out of range")))

/-- The slice expression `s[low:high]` of a string, within its length. -/
def substr (s : GoString) (low high : Nat) : GoString :=
  (s.take high).drop low

/-- The function `parseHexColour` (vault.go 514-533); `none` is the nil
    colour. -/
def parseHexColour (hex : GoString) : Option Color :=
  if hex = [] ∨ hex.length ≠ 7 ∨ hex.getD 0 0 ≠ 35 then none
  else
    match ParseUint (substr hex 1 3) 16 8 with
    | (_, some _) => none
    | (r, none) =>
      match ParseUint (substr hex 3 5) 16 8 with
      | (_, some _) => none
      | (g, none) =>
        match ParseUint (substr hex 5 7) 16 8 with
        | (_, some _) => none
        | (b, none) => some (.NRGBA ⟨Fin.ofNat r, Fin.ofNat g, Fin.ofNat b, 255⟩)

/-- The function `convertColorToNRGBA` (vault.go 537-540): the type
    assertion `col.(color.NRGBA)` panics on nil and on every other dynamic
    type. -/
def convertColorToNRGBA (col : Option Color) : Outcome NRGBA :=
  match col with
  | some (.NRGBA c) => .ret c
  | some (.other typeName) =>
    .panic ("interface conversion: color.Color is " ++ typeName ++ ", not color.NRGBA")
  | none => .panic "interface conversion: interface is nil, not color.NRGBA"

/-- The value of a hex digit, 0 for any other byte. -/
def hexVal (c : Byte) : Nat :=
  if 48 ≤ c.val ∧ c.val ≤ 57 then c.val - 48
  else if 65 ≤ c.val ∧ c.val ≤ 70 then c.val - 55
  else if 97 ≤ c.val ∧ c.val ≤ 102 then c.val - 87
  else 0

/-- The value of the hex pair `hi lo` as a byte. -/
def hexPair (hi lo : Byte) : Byte := Fin.ofNat (16 * hexVal hi + hexVal lo)

/-! ## Stand-in age library with a failing writer -/

/-- The error a failing writer of `demoAgeFailing` returns. -/
def demoWriterErr : GoError := .new "short write"

/-- The stand-in age library with one failing writer call: `step` 0 fails
    `age.Encrypt`, 1 fails `e.Write`, 2 fails `e.Close` and 3 fails
    `a.Close()`, each with `demoWriterErr`; any other `step` fails none. -/
def demoAgeFailing (step : Nat) : AgeLib (Option (GoString × List Byte)) DemoWriter :=
  { demoAge with
    Encrypt := fun a rcp => if step = 0 then (some demoWriterErr, a) else demoAge.Encrypt a rcp
    Write := fun a d => if step = 1 then (some demoWriterErr, a) else demoAge.Write a d
    Close := fun a => if step = 2 then (some demoWriterErr, a) else demoAge.Close a
    armorClose := fun a =>
      if step = 3 then (some demoWriterErr, a.w) else demoAge.armorClose a }

/-! ## The agent client of the SSH library -/

/-- The error `ErrExtensionUnsupported` of `golang.org/x/crypto/ssh/agent`. -/
def ErrExtensionUnsupported : GoError := .new "agent: extension unsupported"

/-- The method `Extension` of the client that `sshagent.NewClient` returns
    (library `golang.org/x/crypto/ssh/agent`, the value of `c.sshclient` built
    in client.go 59-61).  `callRaw` is what the round trip to the agent gives
    for the request: an error, or the reply bytes, whose first byte 5 is
    `SSH_AGENT_FAILURE` and 28 `SSH_AGENT_EXTENSION_FAILURE`.  With every
    error the response is nil. -/
def sshagentExtension (callRaw : GoString → List Byte → Except GoError (List Byte)) :
    ExtensionCall := fun extensionType contents =>
  match callRaw extensionType contents with
  | .error err => ([], some err)
  | .ok buf =>
    if buf.length = 0 then ([], some (.new "agent: failure; empty response"))
    else if buf.head? = some 5 then ([], some ErrExtensionUnsupported)
    else if buf.head? = some 28 then ([], some (.new "agent: generic extension failure"))
    else (buf, none)

/-- An agent that answers every `Lock` of the vault `v` with an extension
    failure followed by the text `no`, and every other request with the one
    byte 6. -/
def demoAgentReply : GoString → List Byte → Except GoError (List Byte) := fun _ contents =>
  if contents = [2, 118] then .ok [28, 110, 111] else .ok [6]

/-! ## Range answers with a line end per line -/

/-- The body made of the lines of the entries, each followed by its own line
    end. -/
def rangeBodyEnds (entries : List ((List Byte × List Byte) × List Byte)) : List Byte :=
  (entries.map (fun e => rangeLine e.1 ++ e.2)).flatten

/-- The line ends of a body: `\n` or `\r\n` behind each line; the last line
    may also stand without a line end. -/
def lineEnds : List (List Byte) → Bool
  | [] => true
  | e :: rest =>
    (decide (e = [10] ∨ e = [13, 10]) && lineEnds rest) || (decide (e = []) && rest.isEmpty)

/-- The answer of `demoPwned` with mixed line ends: the first line closed by
    `\r\n`, the second by `\n`, and a third entry without a line end. -/
def demoEntriesMixed : List ((List Byte × List Byte) × List Byte) :=
  [((List.replicate 35 48, [55]), [13, 10]), ((List.replicate 35 49, [49, 50]), [10]),
   ((List.replicate 35 50, [51]), [])]

/-- A server whose answer is `rangeBodyEnds demoEntriesMixed`. -/
def demoPwnedMixed : Request → Except GoError Response := fun _ =>
  .ok ⟨rangeBodyEnds demoEntriesMixed, none⟩

/-! # Lemmas -/

/-! ## Lemmas on the sampling loop -/

theorem bytesContains_singleton (chars : List Byte) (b : Byte) :
    bytesContains chars [b] = true ↔ b ∈ chars := by
  induction chars with
  | nil => simp [bytesContains]
  | cons x xs ih =>
    simp only [bytesContains, Bool.or_eq_true, ih, List.mem_cons]
    constructor
    · rintro (h | h)
      · left
        simpa [List.isPrefixOf] using h.symm
      · exact Or.inr h
    · rintro (h | h)
      · left
        simp [List.isPrefixOf, h]
      · exact Or.inr h

theorem accepted_mem (chars ks : List Byte) (b : Byte) (h : b ∈ accepted chars ks) :
    b ∈ chars := by
  unfold accepted at h
  rw [List.mem_filter] at h
  exact (bytesContains_singleton chars b).1 h.2

/-- The loop fails exactly with the reader error, an empty string and an
    empty reader. -/
theorem secretLoop_fail (chars : List Byte) (len : Int) (ks acc : List Byte)
    (h : ¬ (1 ≤ len - acc.length ∧ len - acc.length ≤ (accepted chars ks).length)) :
    secretLoop chars len ks acc = ⟨[], some hkdfEntropyErr, []⟩ := by
  induction ks generalizing acc with
  | nil => simp [secretLoop]
  | cons b ks ih =>
    unfold secretLoop
    by_cases hb : bytesContains chars [b] = true
    · have hacc : accepted chars (b :: ks) = b :: accepted chars ks := by
        simp [accepted, hb]
      rw [hacc] at h
      simp only [hb, Bool.not_true, Bool.false_eq_true, if_false]
      have hlen : ((acc ++ [b]).length : Int) = acc.length + 1 := by simp
      by_cases he : ((acc ++ [b]).length : Int) = len
      · exfalso
        apply h
        simp only [List.length_cons, Nat.cast_add, Nat.cast_one]
        omega
      · rw [if_neg he]
        apply ih
        intro hc
        apply h
        simp only [List.length_cons, Nat.cast_add, Nat.cast_one]
        omega
    · have hacc : accepted chars (b :: ks) = accepted chars ks := by
        simp [accepted, hb]
      rw [hacc] at h
      simp only [hb, Bool.not_false, if_true]
      exact ih acc h

/-- The loop succeeds with the first `len - |acc|` accepted bytes appended. -/
theorem secretLoop_ok (chars : List Byte) (len : Int) (ks acc : List Byte)
    (h : 1 ≤ len - acc.length ∧ len - acc.length ≤ (accepted chars ks).length) :
    (secretLoop chars len ks acc).secret
        = acc ++ (accepted chars ks).take (len - acc.length).toNat
      ∧ (secretLoop chars len ks acc).err = none := by
  induction ks generalizing acc with
  | nil =>
    exfalso
    simp [accepted] at h
    omega
  | cons b ks ih =>
    unfold secretLoop
    by_cases hb : bytesContains chars [b] = true
    · have hacc : accepted chars (b :: ks) = b :: accepted chars ks := by
        simp [accepted, hb]
      rw [hacc] at h ⊢
      simp only [hb, Bool.not_true, Bool.false_eq_true, if_false]
      have hlen : ((acc ++ [b]).length : Int) = acc.length + 1 := by simp
      by_cases he : ((acc ++ [b]).length : Int) = len
      · rw [if_pos he]
        have h1 : (len - (acc.length : Int)).toNat = 1 := by omega
        simp [h1]
      · rw [if_neg he]
        simp only [List.length_cons, Nat.cast_add, Nat.cast_one] at h
        have h2 := ih (acc ++ [b]) (by constructor <;> omega)
        obtain ⟨n, hn⟩ : ∃ n : Nat, (len - (acc.length : Int)).toNat = n + 1 :=
          ⟨(len - (acc.length : Int)).toNat - 1, by omega⟩
        have h3 : (len - ((acc ++ [b]).length : Int)).toNat = n := by omega
        rw [h3] at h2
        rw [hn, List.take_succ_cons]
        simpa using h2
    · have hacc : accepted chars (b :: ks) = accepted chars ks := by
        simp [accepted, hb]
      rw [hacc] at h ⊢
      simp only [hb, Bool.not_false, if_true]
      exact ih acc h

/-- What is left of the reader is a suffix of the keystream. -/
theorem secretLoop_reader (chars : List Byte) (len : Int) (ks acc : List Byte) :
    (secretLoop chars len ks acc).reader <:+ ks := by
  induction ks generalizing acc with
  | nil => simp [secretLoop]
  | cons b ks ih =>
    unfold secretLoop
    split
    · exact (ih acc).trans (List.suffix_cons b ks)
    · split
      · exact List.suffix_cons b ks
      · exact (ih _).trans (List.suffix_cons b ks)

theorem accepted_eq_filter (chars ks : List Byte) :
    accepted chars ks = ks.filter (fun b => decide (b ∈ chars)) := by
  unfold accepted
  congr 1
  funext b
  rw [Bool.eq_iff_iff]
  simp [bytesContains_singleton]

/-- The run of `Key.Secret` once salt and secret are resolved. -/
theorem secretRun_eq (L : SecretLib) (rand : RandRead) (k : Key) (seeder : Seeder)
    (salt hrp data : List Byte)
    (hsalt : resolveSalt rand seeder = .ret salt)
    (hdec : L.bech32Decode (L.identityString k.ageIdentity) = .ok (hrp, data)) :
    secretRun L rand k seeder =
      match seeder.Template with
      | .error err => .ret ⟨[], some err, hkdfNew L data salt seeder.Info⟩
      | .ok template =>
        .ret (secretLoop template seeder.Len (hkdfNew L data salt seeder.Info) []) := by
  simp only [secretRun, hsalt, hdec]

/-- A successful `Key.Secret` comes from a successful loop run. -/
theorem Secret_ok_inv (L : SecretLib) (rand : RandRead) (k : Key) (seeder : Seeder)
    (s : GoString) (h : Key.Secret L rand k seeder = .ret (s, none)) :
    ∃ template ks, seeder.Template = .ok template
      ∧ (secretLoop template seeder.Len ks []).secret = s
      ∧ (secretLoop template seeder.Len ks []).err = none := by
  unfold Key.Secret secretRun at h
  split at h
  · cases h
  · rename_i r hr
    split at hr
    · cases hr
    · split at hr
      · cases hr
      · split at hr
        · cases hr
          simp at h
        · rename_i template ht
          cases hr
          simp only [Outcome.ret.injEq, Prod.mk.injEq] at h
          exact ⟨template, _, ht, h.1, h.2⟩

/-- A loop run without error has fulfilled the success condition. -/
theorem secretLoop_ok_cond (chars : List Byte) (len : Int) (ks : List Byte)
    (h : (secretLoop chars len ks []).err = none) :
    1 ≤ len ∧ len ≤ (accepted chars ks).length := by
  by_contra hc
  have hf := secretLoop_fail chars len ks [] (by simpa using hc)
  rw [hf] at h
  cases h

/-! ## Lemmas on the passphrase loop -/

theorem passphraseLoop_eq {σ : Type} (W : WordSource σ) (n : Nat) (st : σ)
    (words : List GoString) :
    passphraseLoop W n st words = (words ++ draws W n st, afterDraws W n st) := by
  induction n generalizing st words with
  | zero => simp [passphraseLoop, draws, afterDraws]
  | succ n ih => simp [passphraseLoop, draws, afterDraws, ih]

theorem draws_length {σ : Type} (W : WordSource σ) (n : Nat) (st : σ) :
    (draws W n st).length = n := by
  induction n generalizing st with
  | zero => rfl
  | succ n ih => simp [draws, ih]

theorem stringsJoin_eq_intercalate (elems : List GoString) (sep : GoString) :
    stringsJoin elems sep = List.intercalate sep elems := by
  induction elems with
  | nil => rfl
  | cons a t ih =>
    cases t with
    | nil => simp [stringsJoin, List.intercalate]
    | cons b rest =>
      simp only [stringsJoin, ih]
      simp [List.intercalate, List.intersperse]

/-! ## Lemmas on the key codec -/

/-- A `MakeKey` that returns a key and no error has generated the identity
    of that key and sealed its key file text. -/
theorem MakeKey_ok_inv {β τ : Type} (L : AgeLib β τ) (gen : Except GoError X25519Identity)
    (now password : GoString) (w w₁ : β) (k : Key)
    (h : MakeKey L gen now password w = ⟨some k, none, w₁⟩) :
    ∃ rcp, gen = .ok k.ageIdentity ∧ L.NewScryptRecipient password = .ok rcp
      ∧ Sealed L w rcp (keyFileData L now k.ageIdentity) w₁ := by
  unfold MakeKey at h
  cases gen with
  | error e => simp at h
  | ok x =>
    cases hr : L.NewScryptRecipient password with
    | error e => simp [hr] at h
    | ok rcp =>
      simp only [hr] at h
      unfold makeKeyBody at h
      rcases he : L.Encrypt (L.armorNewWriter w) rcp with ⟨_ | e₁, a₁⟩
      · rcases hw : L.Write a₁ (keyFileData L now x) with ⟨_ | e₂, a₂⟩
        · rcases hc : L.Close a₂ with ⟨_ | e₃, a₃⟩
          · rcases ha : L.armorClose a₃ with ⟨_ | e₄, w₂⟩
            · simp only [he, hw, hc, ha, KeyResult.mk.injEq, Option.some.injEq] at h
              obtain ⟨hk, -, hw₂⟩ := h
              subst hk hw₂
              exact ⟨rcp, rfl, rfl, a₁, a₂, a₃, he, hw, hc, ha⟩
            · simp [he, hw, hc, ha] at h
          · rcases ha : L.armorClose a₃ with ⟨_ | e₄, w₂⟩ <;>
              simp [he, hw, hc, ha] at h
        · rcases ha : L.armorClose a₂ with ⟨_ | e₄, w₂⟩ <;>
            simp [he, hw, ha] at h
      · rcases ha : L.armorClose a₁ with ⟨_ | e₄, w₂⟩ <;>
          simp [he, ha] at h

theorem takeWhile_append_stop {α : Type} (p : α → Bool) (a : α) (l r : List α)
    (hl : ∀ b ∈ l, p b = true) (ha : p a = false) :
    (l ++ a :: r).takeWhile p = l := by
  induction l with
  | nil => simp [List.takeWhile, ha]
  | cons x xs ih =>
    have hx : p x = true := hl x (List.mem_cons_self x xs)
    simp only [List.cons_append, List.takeWhile_cons, hx, if_true]
    rw [ih (fun b hb => hl b (List.mem_cons_of_mem x hb))]

theorem demoEncode_ne_newline (l : List Byte) : ∀ b ∈ demoEncode l, b ≠ 10 := by
  induction l with
  | nil => simp [demoEncode]
  | cons x xs ih =>
    intro b hb
    simp only [demoEncode, List.mem_cons] at hb
    rcases hb with hb | hb | hb
    · subst hb
      split
      · decide
      · assumption
    · subst hb
      split <;> decide
    · exact ih b hb

theorem demoDecode_encode (l : List Byte) : demoDecode (demoEncode l) = l := by
  induction l with
  | nil => rfl
  | cons x xs ih =>
    simp only [demoEncode, demoDecode, ih]
    by_cases hx : x = 10
    · simp [hx]
    · simp [hx]

theorem demoLastLine_append (pre line : List Byte) (hline : ∀ b ∈ line, b ≠ 10) :
    demoLastLine (pre ++ [10] ++ (line ++ [10])) = line := by
  unfold demoLastLine
  have h1 : pre ++ [10] ++ (line ++ [10]) = (pre ++ [10] ++ line) ++ [10] := by
    simp [List.append_assoc]
  rw [h1, List.dropLast_concat]
  have h2 : (pre ++ [10] ++ line).reverse = line.reverse ++ 10 :: pre.reverse := by
    simp [List.append_assoc]
  rw [h2, takeWhile_append_stop _ _ _ _ _ (by simp), List.reverse_reverse]
  intro b hb
  have := hline b (List.mem_reverse.1 hb)
  simpa using this

/-- The stand-in library keeps the laws of the age library. -/
theorem demoAge_lawful : Lawful demoAge where
  open_sealed := by
    intro p rcp w data w₁ hw hr hs
    obtain ⟨a₁, a₂, a₃, he, hwr, hc, ha⟩ := hs
    simp only [demoAge, Prod.mk.injEq, true_and] at he hwr hc ha hr ⊢
    subst he hwr hc ha
    split at hr
    · cases hr
    · rename_i hp
      cases hr
      exact ⟨⟨p⟩, by simp [hp], by simp⟩
  wrong_passphrase := by
    intro p q rcp id w data w₁ hw hr hs hq hid
    obtain ⟨a₁, a₂, a₃, he, hwr, hc, ha⟩ := hs
    simp only [demoAge, Prod.mk.injEq, true_and] at he hwr hc ha hr hid ⊢
    subst he hwr hc ha
    split at hr
    · cases hr
    · cases hr
      split at hid
      · cases hid
      · cases hid
        exact ⟨.new "incorrect passphrase", by simp [Ne.symm hq]⟩
  parse_keyfile := by
    intro now x _
    have hl := demoLastLine_append
      ([35, 32, 99, 114, 101, 97, 116, 101, 100, 58, 32] ++ now ++ [10]
        ++ ([35, 32, 112, 117, 98, 108, 105, 99, 32, 107, 101, 121, 58, 32]
          ++ demoAge.recipientString x))
      (demoAge.identityString x)
      (by
        intro b hb
        simp only [demoAge, List.mem_cons] at hb
        rcases hb with hb | hb
        · subst hb
          decide
        · exact demoEncode_ne_newline _ b hb)
    have hk : keyFileData demoAge now x
        = [35, 32, 99, 114, 101, 97, 116, 101, 100, 58, 32] ++ now ++ [10]
          ++ ([35, 32, 112, 117, 98, 108, 105, 99, 32, 107, 101, 121, 58, 32]
            ++ demoAge.recipientString x) ++ [10] ++ (demoAge.identityString x ++ [10]) := by
      simp [keyFileData, List.append_assoc]
    have hp : demoAge.ParseIdentities (keyFileData demoAge now x)
        = match demoLastLine (keyFileData demoAge now x) with
          | 65 :: rest => .ok [.x25519 ⟨demoDecode rest⟩]
          | _ => .error (.new "no secret keys found") := rfl
    rw [hp, hk, hl]
    simp [demoAge, demoDecode_encode]

theorem demoAgeMulti_parse_nonempty :
    ∀ d ids, demoAgeMulti.ParseIdentities d = .ok ids → ids ≠ [] := by
  intro d ids h
  simp only [demoAgeMulti] at h
  split at h
  · cases h
  · rename_i hd
    cases h
    cases d with
    | nil => simp at hd
    | cons a t => simp

/-! ## Lemmas on `IsValidHexColour` -/

set_option maxRecDepth 100000 in
theorem notHexDigit_eq_false (c : Byte) : notHexDigit c = false ↔ c ∈ hexDigits := by
  revert c
  decide

/-! ## Lemmas on the session manager -/

theorem find_after_Lock_same (l : List AgentSession) (v : GoString) (id now : Nat) :
    (l.filter (fun s => s.vault != v)).find?
        (fun s => s.id == id && s.vault == v && !s.expired now) = none := by
  rw [List.find?_filter, List.find?_eq_none]
  intro s _
  by_cases hv : s.vault = v <;> simp [hv]

theorem find_after_Lock_other (l : List AgentSession) (v w : GoString) (hw : w ≠ v)
    (id now : Nat) :
    (l.filter (fun s => s.vault != v)).find?
        (fun s => s.id == id && s.vault == w && !s.expired now)
      = l.find? (fun s => s.id == id && s.vault == w && !s.expired now) := by
  rw [List.find?_filter]
  congr 1
  funext s
  by_cases hv : s.vault = v
  · have hsw : ¬ s.vault = w := fun h => hw (h.symm.trans hv)
    simp [hv, hsw, Ne.symm hw]
  · have hb : (s.vault != v) = true := by simp [hv]
    rw [hb]
    generalize (s.id == id && s.vault == w && !s.expired now) = X
    cases X <;> simp

theorem sessions_after_Lock_other (l : List AgentSession) (v w : GoString) (hw : w ≠ v)
    (now : Nat) :
    ((((l.filter (fun s => s.vault != v)).filter (fun s => !s.expired now)).map
        (fun s => (s.id, s.vault))).filter (fun p => p.2 == w))
      = (((l.filter (fun s => !s.expired now)).map
        (fun s => (s.id, s.vault))).filter (fun p => p.2 == w)) := by
  rw [List.filter_map, List.filter_map, List.filter_filter, List.filter_filter,
    List.filter_filter]
  congr 1
  apply List.filter_congr
  intro s _
  by_cases hv : s.vault = v
  · have hsw : ¬ s.vault = w := fun h => hw (h.symm.trans hv)
    simp [hv, hsw, Ne.symm hw]
  · simp [hv]

/-! ## Lemmas on `hibp` -/

theorem hexEncode_length (l : List Byte) : (hexEncode l).length = 2 * l.length := by
  induction l with
  | nil => rfl
  | cons b t ih => simp [hexEncode, ih]; omega

theorem passwordHashUpper_length (H : Sha1) (password : GoString) :
    (passwordHashUpper H password).length = 40 := by
  simp [passwordHashUpper, bytesToUpper, hexEncode_length, H.size]

/-- The requests of `hibp` under a non-nil context. -/
theorem hibp_sent (H : Sha1) (spare : Nat → List Byte) (ctx : Context)
    (c : Request → Except GoError Response) (password : GoString) :
    (hibp H spare (some ctx) c password).sent
      = [⟨"GET", apiURL ++ (passwordHashUpper H password).take 5,
          [("Add-Padding", "true")], ctx⟩] := by
  unfold hibp
  simp only [H.write_nil, NewRequestWithContext, List.nil_append]
  split <;> rfl

theorem splitLines_line (l rest cur : List Byte) (hl : (10 : Byte) ∉ l) :
    splitLines (l ++ 10 :: rest) cur = (cur ++ l) :: splitLines rest [] := by
  induction l generalizing cur with
  | nil => simp [splitLines]
  | cons b t ih =>
    have hb : b ≠ 10 := fun h => hl (by simp [h])
    have ht : (10 : Byte) ∉ t := fun h => hl (List.mem_cons_of_mem b h)
    rw [List.cons_append, splitLines, if_neg hb, ih _ ht]
    simp

theorem splitLines_lines (lines : List (List Byte)) (hl : ∀ l ∈ lines, (10 : Byte) ∉ l) :
    splitLines (lines.map (fun l => l ++ [10])).flatten [] = lines := by
  induction lines with
  | nil => simp [splitLines]
  | cons l t ih =>
    simp only [List.map_cons, List.flatten_cons, List.append_assoc, List.singleton_append]
    rw [splitLines_line l _ [] (hl l (List.mem_cons_self l t)),
      ih (fun x hx => hl x (List.mem_cons_of_mem l hx))]
    simp

theorem takeWhile_all {α : Type} (p : α → Bool) (l : List α) (h : ∀ x ∈ l, p x = true) :
    l.takeWhile p = l := by
  induction l with
  | nil => rfl
  | cons a t ih =>
    simp only [List.takeWhile_cons, h a (List.mem_cons_self a t), if_true]
    rw [ih (fun x hx => h x (List.mem_cons_of_mem a hx))]

set_option maxRecDepth 100000 in
theorem upperHex_ne_newline (b : Byte) (h : b ∈ upperHexDigits) : b ≠ 10 ∧ b ≠ 13 := by
  revert b
  decide

theorem rangeLine_no_newline (e : List Byte × List Byte) (he : RangeEntry e) :
    (10 : Byte) ∉ rangeLine e := by
  obtain ⟨-, hhex, -, hdig⟩ := he
  intro h
  simp only [rangeLine, List.append_assoc, List.singleton_append, List.mem_append,
    List.mem_cons] at h
  rcases h with h | h | h
  · exact (upperHex_ne_newline _ (hhex _ h)).1 rfl
  · exact absurd h (by decide)
  · exact absurd (hdig _ h) (by decide)

theorem rangeLine_getLast (e : List Byte × List Byte) (he : RangeEntry e) :
    (rangeLine e).getLast? ≠ some 13 := by
  obtain ⟨-, -, hne, hdig⟩ := he
  obtain ⟨d, ds, hd⟩ : ∃ d ds, e.2 = ds ++ [d] := by
    rcases List.eq_nil_or_concat e.2 with h | ⟨ds, d, h⟩
    · exact absurd h hne
    · exact ⟨d, ds, by simpa using h⟩
  have hmem : d ∈ e.2 := by simp [hd]
  have hr : rangeLine e = (e.1 ++ [58] ++ ds) ++ [d] := by
    simp [rangeLine, hd, List.append_assoc]
  rw [hr, List.getLast?_append]
  intro h
  simp only [List.getLast?_singleton, Option.or, Option.some.injEq] at h
  subst h
  exact absurd (hdig _ hmem) (by decide)

theorem dropCR_rangeLine (e : List Byte × List Byte) (he : RangeEntry e) (cr : List Byte)
    (hcr : cr = [] ∨ cr = [13]) : dropCR (rangeLine e ++ cr) = rangeLine e := by
  rcases hcr with h | h
  · subst h
    simp [dropCR, rangeLine_getLast e he]
  · subst h
    simp [dropCR]

theorem scanLines_rangeBody (entries : List (List Byte × List Byte)) (cr : List Byte)
    (hcr : cr = [] ∨ cr = [13]) (bodyErr : Option GoError)
    (hform : ∀ e ∈ entries, RangeEntry e)
    (hfit : ∀ e ∈ entries, (rangeLine e ++ cr).length < maxScanTokenSize) :
    scanLines ⟨rangeBody (cr ++ [10]) entries, bodyErr⟩ = (entries.map rangeLine, bodyErr) := by
  have hbody : rangeBody (cr ++ [10]) entries
      = ((entries.map (fun e => rangeLine e ++ cr)).map (fun l => l ++ [10])).flatten := by
    simp [rangeBody, List.map_map, Function.comp_def, List.append_assoc]
  have hnl : ∀ l ∈ entries.map (fun e => rangeLine e ++ cr), (10 : Byte) ∉ l := by
    intro l hl
    simp only [List.mem_map] at hl
    obtain ⟨e, he, rfl⟩ := hl
    intro h
    rw [List.mem_append] at h
    rcases h with h | h
    · exact rangeLine_no_newline e (hform e he) h
    · rcases hcr with hc | hc <;> simp [hc] at h
  have hraw := splitLines_lines _ hnl
  have hall : ∀ l ∈ entries.map (fun e => rangeLine e ++ cr),
      decide (l.length < maxScanTokenSize) = true := by
    intro l hl
    simp only [List.mem_map] at hl
    obtain ⟨e, he, rfl⟩ := hl
    simpa using hfit e he
  have hs : splitLines (rangeBody (cr ++ [10]) entries) []
      = entries.map (fun e => rangeLine e ++ cr) := by
    rw [hbody]
    exact hraw
  simp only [scanLines, hs, takeWhile_all _ _ hall, lt_self_iff_false, if_false,
    List.map_map, Prod.mk.injEq, and_true]
  apply List.map_congr_left
  intro e he
  exact dropCR_rangeLine e (hform e he) cr hcr

theorem digitsValue_digits (ds : List Byte) (hne : ds ≠ [])
    (hdig : ∀ b ∈ ds, 48 ≤ b.val ∧ b.val ≤ 57) :
    digitsValue ds = some (decimalValue ds) := by
  cases ds with
  | nil => exact absurd rfl hne
  | cons d t =>
    have hall : (d :: t).all (fun b => decide (48 ≤ b.val ∧ b.val ≤ 57)) = true := by
      rw [List.all_eq_true]
      intro b hb
      simpa using hdig b hb
    simp only [digitsValue, hall, if_true, decimalValue]

theorem Atoi_digits (ds : List Byte) (hne : ds ≠ [])
    (hdig : ∀ b ∈ ds, 48 ≤ b.val ∧ b.val ≤ 57) (hval : decimalValue ds < 2 ^ 63) :
    Atoi ds = ((decimalValue ds : Int), none) := by
  cases ds with
  | nil => exact absurd rfl hne
  | cons d t =>
    have hd := hdig d (List.mem_cons_self d t)
    have h45 : d ≠ 45 := fun h => absurd (h ▸ hd) (by decide)
    have h43 : d ≠ 43 := fun h => absurd (h ▸ hd) (by decide)
    have hv := digitsValue_digits (d :: t) hne hdig
    simp only [Atoi, List.head?_cons, Option.some.injEq, h45, h43, or_self, if_false, hv,
      decide_False, Bool.false_eq_true, hval, if_true]

theorem hibpScan_entries (suffix : List Byte) (spare : Nat → List Byte) (scanErr : Option GoError)
    (entries : List (List Byte × List Byte)) (i : Nat)
    (hform : ∀ e ∈ entries, RangeEntry e)
    (hval : ∀ e ∈ entries, decimalValue e.2 < 2 ^ 63) :
    hibpScan suffix scanErr (mkTokens spare i (entries.map rangeLine))
      = match entries.find? (fun e => e.1 == suffix) with
        | some e => .ret (true, (decimalValue e.2 : Int), none)
        | none => .ret (false, 0, scanErr) := by
  induction entries generalizing i with
  | nil => rfl
  | cons e t ih =>
    have he := hform e (List.mem_cons_self e t)
    obtain ⟨hlen, -, hne, hdig⟩ := he
    have hto : (⟨rangeLine e, spare i⟩ : Token).sliceTo 35 = some e.1 := by
      have h1 : 35 ≤ (rangeLine e).length + (spare i).length := by
        simp [rangeLine, hlen]; omega
      have h2 : (rangeLine e ++ spare i).take 35 = e.1 := by
        have : rangeLine e ++ spare i = e.1 ++ ([58] ++ e.2 ++ spare i) := by
          simp [rangeLine, List.append_assoc]
        rw [this, ← hlen, List.take_left]
      simp [Token.sliceTo, h1, h2]
    have hfrom : (⟨rangeLine e, spare i⟩ : Token).sliceFrom 36 = some e.2 := by
      have h1 : 36 ≤ (rangeLine e).length := by
        simp [rangeLine, hlen]; omega
      have h2 : (rangeLine e).drop 36 = e.2 := by
        have : rangeLine e = (e.1 ++ [58]) ++ e.2 := by simp [rangeLine]
        rw [this]
        have hl : (e.1 ++ [58]).length = 36 := by simp [hlen]
        rw [← hl, List.drop_left]
      simp [Token.sliceFrom, h1, h2]
    simp only [List.map_cons, mkTokens, hibpScan, hto, hfrom, List.find?_cons]
    by_cases hs : suffix = e.1
    · have hb : (e.1 == suffix) = true := by simp [hs]
      simp only [hs, if_true, beq_self_eq_true]
      rw [Atoi_digits e.2 hne hdig (hval e (List.mem_cons_self e t))]
    · have hb : (e.1 == suffix) = false := by
        simp only [beq_eq_false_iff_ne, ne_eq]
        exact fun h => hs h.symm
      simp only [hs, if_false, hb]
      exact ih (i + 1) (fun x hx => hform x (List.mem_cons_of_mem e hx))
        (fun x hx => hval x (List.mem_cons_of_mem e hx))

/-! ## Lemmas on the configuration manager -/

theorem intOfFloat64_exact (n : Int) (h : IntExact n) : intOfFloat64 (float64OfInt n) = n := by
  obtain ⟨hf, hlo, hhi⟩ := h
  rw [hf]
  unfold intOfFloat64
  rw [if_pos ⟨hlo, hhi⟩]

theorem jsonUnmarshalFields_get : ∀ (m : Fields) (key : String),
    (jsonUnmarshalFields m).get key = jsonUnmarshal (m.get key)
  | .nil, key => by simp [jsonUnmarshalFields, Fields.get, jsonUnmarshal]
  | .cons k v rest, key => by
    simp only [jsonUnmarshalFields, Fields.get]
    split
    · rfl
    · exact jsonUnmarshalFields_get rest key

theorem jsonUnmarshal_asMap_none (v : Val) (h : v.asMap = none) :
    (jsonUnmarshal v).asMap = none := by
  cases v <;> simp_all [jsonUnmarshal, Val.asMap]

/-- The preferences that come back from the JSON text of
    `preferencesToMap`. -/
theorem extract_roundtrip (K : UsmConsts) (goos : String) (p : Preferences)
    (hint : p.IntsExact) (hstr : p.StringsValid) :
    Manager.extractPreferences K goos
      (jsonUnmarshalFields (jsonMarshalFields (Manager.preferencesToMap p))) = p := by
  obtain ⟨h1, h2, h3, h4, h5, h6, h7, h8, h9, h10, h11, h12⟩ := hint
  obtain ⟨hs1, hs2⟩ := hstr
  unfold ValidUTF8 at hs1 hs2
  simp [Manager.extractPreferences, Manager.preferencesToMap, jsonMarshalFields, jsonMarshal,
    jsonUnmarshalFields, jsonUnmarshal, Fields.get, Val.asMap, Val.asBool, Val.asFloat64,
    Val.asString, setInt, setBool, setString, hs1, hs2,
    intOfFloat64_exact _ h1, intOfFloat64_exact _ h2, intOfFloat64_exact _ h3,
    intOfFloat64_exact _ h4, intOfFloat64_exact _ h5, intOfFloat64_exact _ h6,
    intOfFloat64_exact _ h7, intOfFloat64_exact _ h8, intOfFloat64_exact _ h9,
    intOfFloat64_exact _ h10, intOfFloat64_exact _ h11, intOfFloat64_exact _ h12]

/-- After a successful `StoreAppState` the latest version holds the JSON text
    of the content of the state. -/
theorem StoreAppState_latest {σ : Type} (V : Viracochan σ) (hV : StoreKeeps V) (s s₁ : σ)
    (appState : AppState) (h : Manager.StoreAppState V s appState = (none, s₁)) :
    ∃ cfg, V.GetLatest s₁ = .ok cfg
      ∧ cfg.Content = jsonMarshal (.map (Manager.appStateToContent appState)) := by
  unfold Manager.StoreAppState Manager.configExists at h
  cases hg : V.GetLatest s with
  | error e =>
    simp only [hg, Bool.not_false, if_true] at h
    rcases hc : V.Create s (Manager.appStateToContent appState) with ⟨_ | err, s₂⟩
    · simp only [hc, Prod.mk.injEq, true_and] at h
      subst h
      exact hV.create _ _ _ hc
    · simp [hc] at h
  | ok cfg =>
    simp only [hg, Bool.not_true, Bool.false_eq_true, if_false] at h
    rcases hc : V.Update s (Manager.appStateToContent appState) with ⟨_ | err, s₂⟩
    · simp only [hc, Prod.mk.injEq, true_and] at h
      subst h
      exact hV.update _ _ _ hc
    · simp [hc] at h

/-- What `LoadAppState` returns after a successful `StoreAppState` of a state
    with preferences. -/
theorem LoadAppState_after_Store {σ : Type} (K : UsmConsts) (goos : String) (V : Viracochan σ)
    (hV : StoreKeeps V) (now m : Int) (s s₁ : σ) (p : Preferences)
    (h : Manager.StoreAppState V s ⟨m, some p⟩ = (none, s₁)) :
    ∃ t, Manager.LoadAppState K goos V now s₁ = .ok ⟨t, some (Manager.extractPreferences K goos
      (jsonUnmarshalFields (jsonMarshalFields (Manager.preferencesToMap p))))⟩ := by
  obtain ⟨cfg, hg, hc⟩ := StoreAppState_latest V hV s s₁ _ h
  refine ⟨cfg.Time, ?_⟩
  simp [Manager.LoadAppState, hg, hc, Manager.appStateToContent, jsonMarshal, jsonMarshalFields,
    jsonUnmarshalMap, jsonUnmarshalFields, jsonUnmarshal, Manager.extractAppState, Fields.get,
    Val.asMap]

theorem demoStore_keeps : StoreKeeps demoStore where
  create := by
    intro s c s₁ h
    simp only [demoStore] at h ⊢
    split at h
    · simp only [Prod.mk.injEq, true_and] at h
      subst h
      exact ⟨⟨jsonMarshal (.map c), s.length⟩, by simp, rfl⟩
    · simp at h
  update := by
    intro s c s₁ h
    simp only [demoStore] at h ⊢
    split at h
    · simp at h
    · simp only [Prod.mk.injEq, true_and] at h
      subst h
      exact ⟨⟨jsonMarshal (.map c), s.length⟩, by simp, rfl⟩

/-! ## Lemmas on the UI colours -/

set_option maxRecDepth 100000 in
theorem digitVal_hex (c : Byte) (h : notHexDigit c = false) :
    digitVal c = some (hexVal c) ∧ hexVal c < 16 := by
  revert c
  decide

set_option maxRecDepth 100000 in
theorem digitVal_not_hex (c : Byte) (h : notHexDigit c = true) :
    digitVal c = none ∨ ∃ d, digitVal c = some d ∧ 16 ≤ d := by
  revert c
  decide

theorem parseDigits_not_hex (c : Byte) (rest : List Byte) (acc : Nat)
    (h : notHexDigit c = true) : parseDigits 16 (c :: rest) acc = none := by
  rcases digitVal_not_hex c h with hd | ⟨d, hd, hge⟩
  · simp [parseDigits, hd]
  · simp [parseDigits, hd]
    omega

/-- The function `ParseUint` on two bytes, base 16 and 8 bits. -/
theorem ParseUint_pair (a b : Byte) :
    ParseUint [a, b] 16 8 =
      if notHexDigit a = false ∧ notHexDigit b = false then (16 * hexVal a + hexVal b, none)
      else (0, some (.wrap "strconv.ParseUint: parsing: invalid syntax"
        (.new "invalid syntax"))) := by
  cases ha : notHexDigit a
  · cases hb : notHexDigit b
    · obtain ⟨hda, hla⟩ := digitVal_hex a ha
      obtain ⟨hdb, hlb⟩ := digitVal_hex b hb
      have hlt : (0 * 16 + hexVal a) * 16 + hexVal b < 2 ^ 8 := by omega
      have heq : (0 * 16 + hexVal a) * 16 + hexVal b = 16 * hexVal a + hexVal b := by omega
      have hlt2 : 16 * hexVal a + hexVal b < 2 ^ 8 := by omega
      simp only [ParseUint, parseDigits, hda, hdb, hla, hlb, if_true, and_self,
        List.cons_ne_nil, if_false, heq, hlt2]
    · obtain ⟨hda, hla⟩ := digitVal_hex a ha
      have hn := parseDigits_not_hex b [] ((0 * 16 + hexVal a)) hb
      simp [ParseUint, parseDigits, hda, hla] at hn ⊢
      simp [parseDigits, hn]
  · have hn := parseDigits_not_hex a [b] 0 ha
    simp [ParseUint, hn]

/-- The function `IsValidHexColour` on seven bytes. -/
theorem IsValidHexColour_seven (a b c d e f g : Byte) :
    IsValidHexColour [a, b, c, d, e, f, g] = true ↔
      a = 35 ∧ notHexDigit b = false ∧ notHexDigit c = false ∧ notHexDigit d = false
        ∧ notHexDigit e = false ∧ notHexDigit f = false ∧ notHexDigit g = false := by
  simp only [IsValidHexColour, hexColourLoop, List.getD, List.getElem?_cons_zero,
    List.getElem?_cons_succ, Option.getD_some]
  simp

/-- The function `parseHexColour` on seven bytes. -/
theorem parseHexColour_seven (a b c d e f g : Byte) :
    parseHexColour [a, b, c, d, e, f, g] =
      if a = 35 ∧ notHexDigit b = false ∧ notHexDigit c = false ∧ notHexDigit d = false
          ∧ notHexDigit e = false ∧ notHexDigit f = false ∧ notHexDigit g = false
      then some (.NRGBA ⟨hexPair b c, hexPair d e, hexPair f g, 255⟩) else none := by
  have h1 : substr [a, b, c, d, e, f, g] 1 3 = [b, c] := rfl
  have h2 : substr [a, b, c, d, e, f, g] 3 5 = [d, e] := rfl
  have h3 : substr [a, b, c, d, e, f, g] 5 7 = [f, g] := rfl
  unfold parseHexColour
  rw [h1, h2, h3, ParseUint_pair, ParseUint_pair, ParseUint_pair]
  by_cases ha : a = 35
  · by_cases hbc : notHexDigit b = false ∧ notHexDigit c = false
    · by_cases hde : notHexDigit d = false ∧ notHexDigit e = false
      · by_cases hfg : notHexDigit f = false ∧ notHexDigit g = false
        · simp [ha, hbc, hde, hfg, hexPair]
        · have : ¬ (notHexDigit f = false ∧ notHexDigit g = false) := hfg
          simp only [ha, hbc, hde, if_true, this, if_false]
          simp only [not_and] at hfg
          by_cases hf : notHexDigit f = false
          · simp [hf, hfg hf]
          · simp [hf]
      · simp only [ha, hbc, if_true, hde, if_false]
        simp only [not_and] at hde
        by_cases hd : notHexDigit d = false
        · simp [hd, hde hd]
        · simp [hd]
    · simp only [ha, hbc, if_false]
      simp only [not_and] at hbc
      by_cases hb : notHexDigit b = false
      · simp [hb, hbc hb]
      · simp [hb]
  · simp [ha]

/-! ## Lemmas on the slices of `hibp` -/

theorem upperHexDigit_of_nibble (n : Fin 16) :
    (if 97 ≤ (hexDigitLower n.val).val ∧ (hexDigitLower n.val).val ≤ 122
      then (Fin.ofNat ((hexDigitLower n.val).val - 32) : Byte) else hexDigitLower n.val)
      ∈ upperHexDigits := by
  revert n
  decide

theorem passwordHashUpper_mem (H : Sha1) (password : GoString) (b : Byte)
    (hb : b ∈ passwordHashUpper H password) : b ∈ upperHexDigits := by
  have key : ∀ l : List Byte, ∀ x ∈ bytesToUpper (hexEncode l), x ∈ upperHexDigits := by
    intro l
    induction l with
    | nil => intro x hx; simp [hexEncode, bytesToUpper] at hx
    | cons c t ih =>
      intro x hx
      simp only [hexEncode, bytesToUpper, List.map_cons, List.mem_cons] at hx
      rcases hx with hx | hx | hx
      · rw [hx]
        exact upperHexDigit_of_nibble ⟨c.val / 16, by omega⟩
      · rw [hx]
        exact upperHexDigit_of_nibble ⟨c.val % 16, by omega⟩
      · exact ih x hx
  exact key _ b hb

/-- The one line scanned from a body that is the hash suffix and a newline. -/
theorem scanLines_suffix (H : Sha1) (password : GoString) (bodyErr : Option GoError) :
    scanLines ⟨(passwordHashUpper H password).drop 5 ++ [10], bodyErr⟩
      = ([(passwordHashUpper H password).drop 5], bodyErr) := by
  have hlen : ((passwordHashUpper H password).drop 5).length = 35 := by
    simp [passwordHashUpper_length]
  have hmem : ∀ b ∈ (passwordHashUpper H password).drop 5, b ∈ upperHexDigits :=
    fun b hb => passwordHashUpper_mem H password b (List.mem_of_mem_drop hb)
  have hnl : (10 : Byte) ∉ (passwordHashUpper H password).drop 5 :=
    fun h => (upperHex_ne_newline _ (hmem _ h)).1 rfl
  have hs : splitLines ((passwordHashUpper H password).drop 5 ++ [10]) []
      = [(passwordHashUpper H password).drop 5] := by
    rw [splitLines_line _ [] [] hnl]
    simp [splitLines]
  have hcr : dropCR ((passwordHashUpper H password).drop 5)
      = (passwordHashUpper H password).drop 5 := by
    unfold dropCR
    rw [if_neg]
    intro h
    have h13 : (13 : Byte) ∈ (passwordHashUpper H password).drop 5 := by
      rw [List.getLast?_eq_some_iff] at h
      obtain ⟨ys, hys⟩ := h
      rw [hys]
      simp
    exact (upperHex_ne_newline _ (hmem _ h13)).2 rfl
  simp only [scanLines, hs, List.takeWhile_cons, hlen, maxScanTokenSize]
  simp [hcr]

/-! ## Lemmas on the agent client of the SSH library -/

/-- The library client returns a nil response with every error. -/
theorem sshagentExtension_nil (callRaw : GoString → List Byte → Except GoError (List Byte))
    (t : GoString) (c r : List Byte) (err : GoError)
    (h : sshagentExtension callRaw t c = (r, some err)) : r = [] := by
  unfold sshagentExtension at h
  split at h
  · simp only [Prod.mk.injEq] at h
    exact h.1.symm
  · split_ifs at h
    all_goals simp only [Prod.mk.injEq] at h
    · exact h.1.symm
    · exact h.1.symm
    · exact h.1.symm
    · exact absurd h.2 (by simp)

/-! ## Lemmas on range answers with a line end per line -/

theorem lineEnds_cons (e : List Byte) (rest : List (List Byte))
    (h : lineEnds (e :: rest) = true) :
    ((e = [10] ∨ e = [13, 10]) ∧ lineEnds rest = true) ∨ (e = [] ∧ rest = []) := by
  simp only [lineEnds, Bool.or_eq_true, Bool.and_eq_true, decide_eq_true_eq,
    List.isEmpty_iff] at h
  exact h

theorem splitLines_last (l cur : List Byte) (hl : (10 : Byte) ∉ l) :
    splitLines l cur = if (cur ++ l).isEmpty then [] else [cur ++ l] := by
  induction l generalizing cur with
  | nil => simp [splitLines]
  | cons b t ih =>
    have hb : b ≠ 10 := fun h => hl (by simp [h])
    have ht : (10 : Byte) ∉ t := fun h => hl (List.mem_cons_of_mem b h)
    rw [splitLines, if_neg hb, ih _ ht]
    simp

theorem rangeLine_ne_nil (e : List Byte × List Byte) : rangeLine e ≠ [] := by
  simp [rangeLine]

/-- The raw lines of a body with a line end per line: each line with its
    `\r`, if it has one. -/
theorem splitLines_rangeBodyEnds (entries : List ((List Byte × List Byte) × List Byte))
    (hform : ∀ e ∈ entries, RangeEntry e.1)
    (hends : lineEnds (entries.map (fun e => e.2)) = true) :
    splitLines (rangeBodyEnds entries) []
      = entries.map (fun e => rangeLine e.1 ++ e.2.dropLast) := by
  induction entries with
  | nil => simp [rangeBodyEnds, splitLines]
  | cons e t ih =>
    have hnl := rangeLine_no_newline e.1 (hform e (List.mem_cons_self e t))
    have hbody : rangeBodyEnds (e :: t) = rangeLine e.1 ++ e.2 ++ rangeBodyEnds t := by
      simp [rangeBodyEnds]
    simp only [List.map_cons] at hends
    rcases lineEnds_cons _ _ hends with ⟨he, hrest⟩ | ⟨he, hrest⟩
    · have iht := ih (fun x hx => hform x (List.mem_cons_of_mem e hx)) hrest
      rcases he with he | he
      · rw [hbody, he]
        simp only [List.append_assoc, List.singleton_append, List.map_cons, List.dropLast_single,
          List.append_nil]
        rw [splitLines_line _ _ [] hnl, iht]
        simp [he]
      · rw [hbody, he]
        have hnl2 : (10 : Byte) ∉ rangeLine e.1 ++ [13] := by
          intro h
          rw [List.mem_append] at h
          rcases h with h | h
          · exact hnl h
          · simp at h
        have hsplit : rangeLine e.1 ++ [13, 10] ++ rangeBodyEnds t
            = (rangeLine e.1 ++ [13]) ++ 10 :: rangeBodyEnds t := by simp
        rw [hsplit, splitLines_line _ _ [] hnl2, iht]
        simp [he]
    · have ht : t = [] := by
        cases t with
        | nil => rfl
        | cons a b => simp at hrest
      subst ht
      rw [hbody, he]
      simp only [rangeBodyEnds, List.map_nil, List.flatten_nil, List.append_nil, List.map_cons,
        List.dropLast_nil]
      rw [splitLines_last _ [] hnl]
      simp [rangeLine_ne_nil, he]

/-- The lines scanned from a body with a line end per line. -/
theorem scanLines_rangeBodyEnds (entries : List ((List Byte × List Byte) × List Byte))
    (bodyErr : Option GoError)
    (hform : ∀ e ∈ entries, RangeEntry e.1)
    (hends : lineEnds (entries.map (fun e => e.2)) = true)
    (hfit : ∀ e ∈ entries, (rangeLine e.1).length + (e.2.length - 1) < maxScanTokenSize) :
    scanLines ⟨rangeBodyEnds entries, bodyErr⟩
      = ((entries.map (fun e => e.1)).map rangeLine, bodyErr) := by
  have hs := splitLines_rangeBodyEnds entries hform hends
  have hall : ∀ l ∈ entries.map (fun e => rangeLine e.1 ++ e.2.dropLast),
      decide (l.length < maxScanTokenSize) = true := by
    intro l hl
    simp only [List.mem_map] at hl
    obtain ⟨e, he, rfl⟩ := hl
    simpa using hfit e he
  have hcr : ∀ e ∈ entries, e.2.dropLast = [] ∨ e.2.dropLast = [13] := by
    intro e he
    have key : ∀ (l : List (List Byte)), lineEnds l = true → ∀ x ∈ l,
        x.dropLast = [] ∨ x.dropLast = [13] := by
      intro l
      induction l with
      | nil => intro _ x hx; simp at hx
      | cons a b ihb =>
        intro hl x hx
        rcases lineEnds_cons _ _ hl with ⟨ha, hb⟩ | ⟨ha, hb⟩
        · rcases List.mem_cons.1 hx with hxa | hxb
          · subst hxa
            rcases ha with ha | ha <;> simp [ha]
          · exact ihb hb x hxb
        · subst hb
          simp only [List.mem_singleton] at hx
          subst hx
          simp [ha]
    exact key _ hends e.2 (List.mem_map.2 ⟨e, he, rfl⟩)
  simp only [scanLines, hs, takeWhile_all _ _ hall, lt_self_iff_false, if_false,
    List.map_map, Prod.mk.injEq, and_true]
  apply List.map_congr_left
  intro e he
  exact dropCR_rangeLine e.1 (hform e he) _ (hcr e he)

/-- A matching line of the stated form that does not fit the scanner's buffer:
    the count is written with `n` zeros, `n` at least 65536.  The scan ends
    with `bufio.ErrTooLong` and `hibp` reports no match. -/
theorem hibp_line_too_long (H : Sha1) (spare : Nat → List Byte) (ctx : Context)
    (c : Request → Except GoError Response) (password : GoString) (n : Nat)
    (hn : 65536 ≤ n)
    (hc : ∀ req, c req = .ok ⟨rangeBodyEnds
      [(((passwordHashUpper H password).drop 5, List.replicate n 48), [10])], none⟩) :
    (hibp H spare (some ctx) c password).out = .ret (false, 0, some ErrTooLong) := by
  have hmem : ∀ b ∈ (passwordHashUpper H password).drop 5, b ∈ upperHexDigits :=
    fun b hb => passwordHashUpper_mem H password b (List.mem_of_mem_drop hb)
  have hnl : (10 : Byte) ∉
      rangeLine ((passwordHashUpper H password).drop 5, List.replicate n 48) := by
    intro h
    simp only [rangeLine, List.append_assoc, List.singleton_append, List.mem_append,
      List.mem_cons, List.mem_replicate] at h
    rcases h with h | h | h
    · exact (upperHex_ne_newline _ (hmem _ h)).1 rfl
    · exact absurd h (by decide)
    · exact absurd h.2 (by decide)
  have hbody : rangeBodyEnds
      [(((passwordHashUpper H password).drop 5, List.replicate n 48), [10])]
      = rangeLine ((passwordHashUpper H password).drop 5, List.replicate n 48)
          ++ 10 :: [] := by
    simp [rangeBodyEnds]
  have hlong : ¬ (rangeLine ((passwordHashUpper H password).drop 5,
      List.replicate n 48)).length < maxScanTokenSize := by
    simp only [rangeLine, List.length_append, List.length_replicate, maxScanTokenSize]
    omega
  have hscan : scanLines ⟨rangeBodyEnds
      [(((passwordHashUpper H password).drop 5, List.replicate n 48), [10])], none⟩
      = ([], some ErrTooLong) := by
    simp only [scanLines, hbody, splitLines_line _ [] [] hnl, splitLines, List.nil_append,
      List.isEmpty_nil, if_true, List.takeWhile_cons, hlong, decide_False]
    simp
  unfold hibp
  simp only [H.write_nil, NewRequestWithContext, hc, hscan, mkTokens, hibpScan]

/-! # Claims -/

/-! ## Claims on `Key.Secret` -/

/-- C1: whenever `Key.Secret` returns a string without error, the length in
    bytes of that string equals `seeder.Len()`. -/
theorem Secret_length (L : SecretLib) (rand : RandRead) (k : Key) (seeder : Seeder)
    (s : GoString) (h : Key.Secret L rand k seeder = .ret (s, none)) :
    (s.length : Int) = seeder.Len := by
  obtain ⟨template, ks, _, hs, he⟩ := Secret_ok_inv L rand k seeder s h
  have hc := secretLoop_ok_cond template seeder.Len ks he
  have ho := (secretLoop_ok template seeder.Len ks [] (by simpa using hc)).1
  rw [hs] at ho
  rw [ho]
  simp only [List.length_nil, Nat.cast_zero, sub_zero, List.nil_append, List.length_take]
  omega

theorem Secret_length_witness :
    Key.Secret demoSecretLib demoRand demoKey demoSeeder = .ret ([98, 100], none)
      ∧ ((([98, 100] : GoString).length : Int) = demoSeeder.Len) :=
  ⟨by decide, Secret_length demoSecretLib demoRand demoKey demoSeeder [98, 100] (by decide)⟩

/-- C2: whenever `Key.Secret` returns a string without error, the template
    was delivered without error and every byte of the returned string is a byte
    of the template. -/
theorem Secret_chars (L : SecretLib) (rand : RandRead) (k : Key) (seeder : Seeder)
    (s : GoString) (h : Key.Secret L rand k seeder = .ret (s, none)) :
    ∃ template, seeder.Template = .ok template ∧ ∀ b ∈ s, b ∈ template := by
  obtain ⟨template, ks, ht, hs, he⟩ := Secret_ok_inv L rand k seeder s h
  refine ⟨template, ht, ?_⟩
  have hc := secretLoop_ok_cond template seeder.Len ks he
  have ho := (secretLoop_ok template seeder.Len ks [] (by simpa using hc)).1
  rw [hs] at ho
  intro b hb
  rw [ho, List.nil_append] at hb
  exact accepted_mem template ks b (List.mem_of_mem_take hb)

theorem Secret_chars_witness :
    ∃ template, demoSeeder.Template = .ok template
      ∧ ∀ b ∈ ([98, 100] : GoString), b ∈ template :=
  Secret_chars demoSecretLib demoRand demoKey demoSeeder [98, 100] (by decide)

/-- C3: with an explicit (non-nil) salt, two calls of `Key.Secret` with the
    same key and with equal `Template()`, `Len()`, `Salt()` and `Info()` return
    the same result, string and error alike, whatever the random source does
    at either call. -/
theorem Secret_deterministic (L : SecretLib) (rand₁ rand₂ : RandRead) (k : Key)
    (s₁ s₂ : Seeder) (hsalt : s₁.Salt ≠ none)
    (hT : s₁.Template = s₂.Template) (hL : s₁.Len = s₂.Len)
    (hS : s₁.Salt = s₂.Salt) (hI : s₁.Info = s₂.Info) :
    Key.Secret L rand₁ k s₁ = Key.Secret L rand₂ k s₂ := by
  obtain ⟨salt, hs⟩ := Option.ne_none_iff_exists'.1 hsalt
  have h₁ : resolveSalt rand₁ s₁ = .ret salt := by simp [resolveSalt, hs]
  have h₂ : resolveSalt rand₂ s₂ = .ret salt := by simp [resolveSalt, ← hS, hs]
  simp only [Key.Secret, secretRun, h₁, h₂, hT, hL, hI]

theorem Secret_deterministic_witness :
    Key.Secret demoSecretLib demoRand demoKey demoSeeder
      = Key.Secret demoSecretLib demoRandFail demoKey demoSeeder :=
  Secret_deterministic demoSecretLib demoRand demoRandFail demoKey demoSeeder demoSeeder
    (by decide) rfl rfl rfl rfl

/-- C4: for `Len() = n ≥ 1`, `Key.Secret` succeeds with `s` exactly when the
    keystream holds at least `n` bytes of the alphabet and `s` is the first
    `n` elements, in keystream order, of the subsequence of keystream bytes that
    are members of the alphabet; other bytes contribute nothing. -/
theorem Secret_rejection_sampling (L : SecretLib) (rand : RandRead) (k : Key)
    (seeder : Seeder) (salt hrp data template s : List Byte)
    (hsalt : resolveSalt rand seeder = .ret salt)
    (hdec : L.bech32Decode (L.identityString k.ageIdentity) = .ok (hrp, data))
    (htpl : seeder.Template = .ok template)
    (hn : 1 ≤ seeder.Len) :
    Key.Secret L rand k seeder = .ret (s, none) ↔
      (seeder.Len ≤ (((hkdfNew L data salt seeder.Info).filter
          (fun b => decide (b ∈ template))).length : Int)
        ∧ s = ((hkdfNew L data salt seeder.Info).filter
          (fun b => decide (b ∈ template))).take seeder.Len.toNat) := by
  rw [← accepted_eq_filter]
  have hrun := secretRun_eq L rand k seeder salt hrp data hsalt hdec
  simp only [htpl] at hrun
  simp only [Key.Secret, hrun, Outcome.ret.injEq, Prod.mk.injEq]
  constructor
  · rintro ⟨hs, he⟩
    have hc := secretLoop_ok_cond _ _ _ he
    have ho := (secretLoop_ok template seeder.Len _ [] (by simpa using hc)).1
    rw [hs] at ho
    exact ⟨hc.2, by simpa using ho⟩
  · rintro ⟨hle, hs⟩
    have ho := secretLoop_ok template seeder.Len (hkdfNew L data salt seeder.Info) []
      (by simpa using And.intro hn hle)
    exact ⟨by simpa [hs] using ho.1, ho.2⟩

theorem Secret_rejection_sampling_witness :
    Key.Secret demoSecretLib demoRand demoKey demoSeeder = .ret ([98, 100], none) ↔
      (demoSeeder.Len ≤ (((hkdfNew demoSecretLib [97, 98, 99, 100] [98] demoSeeder.Info).filter
          (fun b => decide (b ∈ ([98, 100] : List Byte)))).length : Int)
        ∧ ([98, 100] : List Byte)
            = ((hkdfNew demoSecretLib [97, 98, 99, 100] [98] demoSeeder.Info).filter
                (fun b => decide (b ∈ ([98, 100] : List Byte)))).take demoSeeder.Len.toNat) :=
  Secret_rejection_sampling demoSecretLib demoRand demoKey demoSeeder [98] []
    [97, 98, 99, 100] [98, 100] [98, 100] (by decide) rfl rfl (by decide)

/-- C5: with `Len() == 0` the loop never meets its exit test, which compares
    the lengths only after a byte has been appended: `Key.Secret` reads the
    keystream to its end and returns the empty string together with the
    reader error, not the empty string without error. -/
theorem Secret_len_zero (L : SecretLib) (rand : RandRead) (k : Key) (seeder : Seeder)
    (salt hrp data template : List Byte)
    (hsalt : resolveSalt rand seeder = .ret salt)
    (hdec : L.bech32Decode (L.identityString k.ageIdentity) = .ok (hrp, data))
    (htpl : seeder.Template = .ok template)
    (hlen : seeder.Len = 0) :
    secretRun L rand k seeder = .ret ⟨[], some hkdfEntropyErr, []⟩
      ∧ Key.Secret L rand k seeder = .ret ([], some hkdfEntropyErr) := by
  have hrun := secretRun_eq L rand k seeder salt hrp data hsalt hdec
  simp only [htpl] at hrun
  have hf := secretLoop_fail template seeder.Len (hkdfNew L data salt seeder.Info) []
    (by simp [hlen])
  rw [hf] at hrun
  exact ⟨hrun, by simp [Key.Secret, hrun]⟩

theorem Secret_len_zero_witness :
    secretRun demoSecretLib demoRand demoKey ⟨.ok [98, 100], 0, some [98], [120, 100]⟩
        = .ret ⟨[], some hkdfEntropyErr, []⟩
      ∧ Key.Secret demoSecretLib demoRand demoKey ⟨.ok [98, 100], 0, some [98], [120, 100]⟩
        = .ret ([], some hkdfEntropyErr) :=
  Secret_len_zero demoSecretLib demoRand demoKey ⟨.ok [98, 100], 0, some [98], [120, 100]⟩
    [98] [] [97, 98, 99, 100] [98, 100] rfl rfl rfl rfl

/-- C6: `Key.Secret` fails, with an error and the empty string, whenever
    `seeder.Template()` returns an error, and then it returns that same error,
    or returns the empty alphabet, and then it returns the reader error. -/
theorem Secret_template_failure (L : SecretLib) (rand : RandRead) (k : Key)
    (seeder : Seeder) (salt hrp data : List Byte)
    (hsalt : resolveSalt rand seeder = .ret salt)
    (hdec : L.bech32Decode (L.identityString k.ageIdentity) = .ok (hrp, data)) :
    (∀ e, seeder.Template = .error e → Key.Secret L rand k seeder = .ret ([], some e))
      ∧ (seeder.Template = .ok [] →
          Key.Secret L rand k seeder = .ret ([], some hkdfEntropyErr)) := by
  have hrun := secretRun_eq L rand k seeder salt hrp data hsalt hdec
  constructor
  · intro e he
    simp only [he] at hrun
    simp [Key.Secret, hrun]
  · intro he
    simp only [he] at hrun
    have hf := secretLoop_fail [] seeder.Len (hkdfNew L data salt seeder.Info) []
      (by simp [accepted, bytesContains]; omega)
    rw [hf] at hrun
    simp [Key.Secret, hrun]

theorem Secret_template_failure_witness :
    Key.Secret demoSecretLib demoRand demoKey ⟨.error (.new "no template"), 2, some [98], []⟩
        = .ret ([], some (.new "no template"))
      ∧ Key.Secret demoSecretLib demoRand demoKey ⟨.ok [], 2, none, []⟩
        = .ret ([], some hkdfEntropyErr) :=
  ⟨(Secret_template_failure demoSecretLib demoRand demoKey
      ⟨.error (.new "no template"), 2, some [98], []⟩ [98] [] [97, 98, 99, 100] rfl rfl).1
      _ rfl,
   (Secret_template_failure demoSecretLib demoRand demoKey
      ⟨.ok [], 2, none, []⟩ (List.replicate 32 7) [] [97, 98, 99, 100] rfl rfl).2 rfl⟩

/-- C7: the sampling loop of `Key.Secret` is bounded: the run ends for every
    key and seeder, it takes at most 8160 bytes from the keystream reader
    (each successful one-byte read takes one), and when the keystream holds
    fewer than `Len()` bytes of the alphabet, or `Len()` is not positive, it
    ends on the reader error with the empty string. -/
theorem Secret_loop_bounded (L : SecretLib) (rand : RandRead) (k : Key)
    (seeder : Seeder) (salt hrp data : List Byte)
    (hsalt : resolveSalt rand seeder = .ret salt)
    (hdec : L.bech32Decode (L.identityString k.ageIdentity) = .ok (hrp, data)) :
    ∃ r, secretRun L rand k seeder = .ret r
      ∧ r.reader <:+ hkdfNew L data salt seeder.Info
      ∧ (hkdfNew L data salt seeder.Info).length - r.reader.length ≤ 8160
      ∧ ∀ template, seeder.Template = .ok template →
          ¬ (1 ≤ seeder.Len ∧ seeder.Len ≤
              (((hkdfNew L data salt seeder.Info).filter
                (fun b => decide (b ∈ template))).length : Int)) →
          r = ⟨[], some hkdfEntropyErr, []⟩
            ∧ Key.Secret L rand k seeder = .ret ([], some hkdfEntropyErr) := by
  have hrun := secretRun_eq L rand k seeder salt hrp data hsalt hdec
  have hlim : (hkdfNew L data salt seeder.Info).length ≤ 8160 := by
    unfold hkdfNew hkdfLimit
    exact (List.length_take_le _ _)
  cases htpl : seeder.Template with
  | error e =>
    simp only [htpl] at hrun
    refine ⟨_, hrun, List.suffix_refl _, by simp, ?_⟩
    intro template ht
    cases ht
  | ok t =>
    simp only [htpl] at hrun
    refine ⟨_, hrun, secretLoop_reader _ _ _ _, by omega, ?_⟩
    intro template ht hc
    cases ht
    rw [← accepted_eq_filter] at hc
    have hf := secretLoop_fail t seeder.Len (hkdfNew L data salt seeder.Info) []
      (by simpa using hc)
    refine ⟨hf, ?_⟩
    rw [hf] at hrun
    simp [Key.Secret, hrun]

theorem Secret_loop_bounded_witness :
    ∃ r, secretRun demoSecretLib demoRand demoKey ⟨.ok [101], 1, none, []⟩ = .ret r
      ∧ r.reader <:+ hkdfNew demoSecretLib [97, 98, 99, 100] (List.replicate 32 7) []
      ∧ (hkdfNew demoSecretLib [97, 98, 99, 100] (List.replicate 32 7) []).length
          - r.reader.length ≤ 8160
      ∧ ∀ template, (⟨.ok [101], 1, none, []⟩ : Seeder).Template = .ok template →
          ¬ (1 ≤ (1 : Int) ∧ (1 : Int) ≤
              (((hkdfNew demoSecretLib [97, 98, 99, 100] (List.replicate 32 7) []).filter
                (fun b => decide (b ∈ template))).length : Int)) →
          r = ⟨[], some hkdfEntropyErr, []⟩
            ∧ Key.Secret demoSecretLib demoRand demoKey ⟨.ok [101], 1, none, []⟩
                = .ret ([], some hkdfEntropyErr) :=
  Secret_loop_bounded demoSecretLib demoRand demoKey ⟨.ok [101], 1, none, []⟩
    (List.replicate 32 7) [] [97, 98, 99, 100] rfl rfl

/-! ## Claims on `Key.Passphrase` -/

/-- C8: for every `n ≥ 0`, `Key.Passphrase(n)` returns without error the
    string made of exactly `n` words drawn from the word source, in draw order,
    with the separator `-` between consecutive words; `Passphrase(0)` returns
    the empty string. -/
theorem Passphrase_words {σ : Type} (W : WordSource σ) (k : Key) (n : Nat) (st : σ) :
    Key.Passphrase W k (n : Int) st
        = ((List.intercalate [45] (draws W n st), none), afterDraws W n st)
      ∧ (draws W n st).length = n
      ∧ Key.Passphrase W k 0 st = (([], none), st) := by
  refine ⟨?_, draws_length W n st, ?_⟩
  · simp [Key.Passphrase, passphraseLoop_eq, stringsJoin_eq_intercalate]
  · simp [Key.Passphrase, passphraseLoop, stringsJoin]

/-! ## Claims on the key codec -/

/-- C9: round trip of the key codec.  When `MakeKey(p, buf)` on a fresh
    buffer returns a key `k` and no error, `LoadKey(p, buf)` returns without
    error a key with the identity of `k`, and for every seeder with an explicit
    salt both keys give the same `Secret` result. -/
theorem LoadKey_MakeKey_roundtrip {β τ : Type} (L : AgeLib β τ) (hL : Lawful L)
    (gen : Except GoError X25519Identity) (now p : GoString) (buf buf₁ : β) (k : Key)
    (hbuf : L.isEmpty buf = true) (hnow : (10 : Byte) ∉ now)
    (h : MakeKey L gen now p buf = ⟨some k, none, buf₁⟩) :
    ∃ k₁, LoadKey L p buf₁ = .ret (some k₁, none)
      ∧ k₁.ageIdentity = k.ageIdentity
      ∧ ∀ (S : SecretLib) (rand₁ rand₂ : RandRead) (seeder : Seeder),
          seeder.Salt ≠ none →
          Key.Secret S rand₁ k₁ seeder = Key.Secret S rand₂ k seeder := by
  obtain ⟨rcp, -, hr, hs⟩ := MakeKey_ok_inv L gen now p buf buf₁ k h
  obtain ⟨id, hid, hd⟩ := hL.open_sealed p rcp buf _ buf₁ hbuf hr hs
  have hp := hL.parse_keyfile now k.ageIdentity hnow
  refine ⟨k, ?_, rfl, ?_⟩
  · simp [LoadKey, hid, hd, hp]
  · intro S rand₁ rand₂ seeder hsalt
    obtain ⟨salt, hs⟩ := Option.ne_none_iff_exists'.1 hsalt
    simp [Key.Secret, secretRun, resolveSalt, hs]

theorem LoadKey_MakeKey_roundtrip_witness :
    ∃ k₁, LoadKey demoAge demoPassword demoEnvelope = .ret (some k₁, none)
      ∧ k₁.ageIdentity = demoKey.ageIdentity
      ∧ ∀ (S : SecretLib) (rand₁ rand₂ : RandRead) (seeder : Seeder),
          seeder.Salt ≠ none →
          Key.Secret S rand₁ k₁ seeder = Key.Secret S rand₂ demoKey seeder :=
  LoadKey_MakeKey_roundtrip demoAge demoAge_lawful (.ok demoKey.ageIdentity) demoNow
    demoPassword none demoEnvelope demoKey rfl (by decide) (by decide)

/-- C10: for an envelope written by `MakeKey` with passphrase `p` and every
    passphrase `q ≠ p`, `LoadKey(q, envelope)` returns a nil key and an error
    that wraps the failure of decrypting with `q` (reported by
    `age.NewScryptIdentity` or by `age.Decrypt`); and `LoadKey` never returns a
    non-nil key together with a non-nil error. -/
theorem LoadKey_wrong_passphrase {β τ : Type} (L : AgeLib β τ) (hL : Lawful L)
    (gen : Except GoError X25519Identity) (now p q : GoString) (buf buf₁ : β) (k : Key)
    (hbuf : L.isEmpty buf = true)
    (h : MakeKey L gen now p buf = ⟨some k, none, buf₁⟩) (hq : q ≠ p) :
    (∃ e, LoadKey L q buf₁ = .ret (none, some (loadWrapErr e))
        ∧ (loadWrapErr e).Unwrap = some e
        ∧ (L.NewScryptIdentity q = .error e
            ∨ ∃ id, L.NewScryptIdentity q = .ok id ∧ L.Decrypt buf₁ id = .error e))
      ∧ ∀ (password : GoString) (r : β) (key : Option Key) (err : Option GoError),
          LoadKey L password r = .ret (key, err) → key = none ∨ err = none := by
  constructor
  · obtain ⟨rcp, -, hr, hs⟩ := MakeKey_ok_inv L gen now p buf buf₁ k h
    cases hid : L.NewScryptIdentity q with
    | error e =>
      exact ⟨e, by simp [LoadKey, hid], rfl, Or.inl rfl⟩
    | ok id =>
      obtain ⟨e, he⟩ := hL.wrong_passphrase p q rcp id buf _ buf₁ hbuf hr hs hq hid
      exact ⟨e, by simp [LoadKey, hid, he], rfl, Or.inr ⟨id, rfl, he⟩⟩
  · intro password r key err hret
    unfold LoadKey at hret
    split at hret
    · simp only [Outcome.ret.injEq, Prod.mk.injEq] at hret
      exact Or.inl hret.1.symm
    · split at hret
      · simp only [Outcome.ret.injEq, Prod.mk.injEq] at hret
        exact Or.inl hret.1.symm
      · split at hret
        · simp only [Outcome.ret.injEq, Prod.mk.injEq] at hret
          exact Or.inl hret.1.symm
        · split at hret
          · simp only [Outcome.ret.injEq, Prod.mk.injEq] at hret
            exact Or.inl hret.1.symm
          · split at hret
            · cases hret
            · simp only [Outcome.ret.injEq, Prod.mk.injEq] at hret
              exact Or.inr hret.2.symm
            · simp only [Outcome.ret.injEq, Prod.mk.injEq] at hret
              exact Or.inl hret.1.symm

theorem LoadKey_wrong_passphrase_witness :
    (∃ e, LoadKey demoAge [112] demoEnvelope = .ret (none, some (loadWrapErr e))
        ∧ (loadWrapErr e).Unwrap = some e
        ∧ (demoAge.NewScryptIdentity [112] = .error e
            ∨ ∃ id, demoAge.NewScryptIdentity [112] = .ok id
                ∧ demoAge.Decrypt demoEnvelope id = .error e))
      ∧ ∀ (password : GoString) (r : Option (GoString × List Byte)) (key : Option Key)
          (err : Option GoError),
          LoadKey demoAge password r = .ret (key, err) → key = none ∨ err = none :=
  LoadKey_wrong_passphrase demoAge demoAge_lawful (.ok demoKey.ageIdentity) demoNow
    demoPassword [112] none demoEnvelope demoKey rfl (by decide) (by decide)

/-- C11: `LoadKey` returns a key exactly when the decrypted envelope parses
    to one identity and that identity is an X25519 identity; with more than one
    identity it returns a nil key and the error `only one identity per file is
    supported, found n`; with one identity of another type it returns a nil key
    and the error `only *age.X25519Identity are supported, got T`; and, as
    `age.ParseIdentities` returns an error instead of an empty slice, the
    index `ageIdentities[0]` is never out of range. -/
theorem LoadKey_identities {β τ : Type} (L : AgeLib β τ)
    (hparse : ∀ d ids, L.ParseIdentities d = .ok ids → ids ≠ [])
    (password : GoString) (r : β) :
    (∀ k err, LoadKey L password r = .ret (some k, err) ↔
        (err = none ∧ ∃ id d, L.NewScryptIdentity password = .ok id
          ∧ L.Decrypt r id = .ok d
          ∧ L.ParseIdentities d = .ok [.x25519 k.ageIdentity]))
      ∧ (∀ id d ids, L.NewScryptIdentity password = .ok id → L.Decrypt r id = .ok d →
          L.ParseIdentities d = .ok ids → 1 < ids.length →
          LoadKey L password r = .ret (none, some (loadWrapErr (.new
            ("only one identity per file is supported, found "
              ++ toString ids.length)))))
      ∧ (∀ id d typeName, L.NewScryptIdentity password = .ok id → L.Decrypt r id = .ok d →
          L.ParseIdentities d = .ok [.other typeName] →
          LoadKey L password r = .ret (none, some (loadWrapErr (.new
            ("only *age.X25519Identity are supported, got " ++ typeName)))))
      ∧ ∀ msg, LoadKey L password r ≠ .panic msg := by
  refine ⟨?_, ?_, ?_, ?_⟩
  · intro k err
    constructor
    · intro h
      unfold LoadKey at h
      cases hid : L.NewScryptIdentity password with
      | error e => simp [hid] at h
      | ok id =>
        cases hd : L.Decrypt r id with
        | error e => simp [hid, hd] at h
        | ok d =>
          cases hp : L.ParseIdentities d with
          | error e => simp [hid, hd, hp] at h
          | ok ids =>
            simp only [hid, hd, hp] at h
            split at h
            · simp at h
            · rename_i hlen
              match ids, hlen, h with
              | [], _, h => simp at h
              | [.x25519 x], _, h =>
                simp only [Outcome.ret.injEq, Prod.mk.injEq, Option.some.injEq] at h
                obtain ⟨hk, he⟩ := h
                subst hk
                exact ⟨he.symm, id, d, rfl, hd, hp⟩
              | .x25519 x :: _ :: _, hlen, _ => simp at hlen
              | .other T :: _, _, h => simp at h
    · rintro ⟨he, id, d, hid, hd, hp⟩
      subst he
      simp [LoadKey, hid, hd, hp]
  · intro id d ids hid hd hp hlen
    simp [LoadKey, hid, hd, hp, hlen]
  · intro id d typeName hid hd hp
    simp [LoadKey, hid, hd, hp]
  · intro msg h
    unfold LoadKey at h
    cases hid : L.NewScryptIdentity password with
    | error e => simp [hid] at h
    | ok id =>
      cases hd : L.Decrypt r id with
      | error e => simp [hid, hd] at h
      | ok d =>
        cases hp : L.ParseIdentities d with
        | error e => simp [hid, hd, hp] at h
        | ok ids =>
          simp only [hid, hd, hp] at h
          split at h
          · simp at h
          · have hne := hparse d ids hp
            match ids, hne, h with
            | [], hne, _ => exact hne rfl
            | .x25519 x :: _, _, h => simp at h
            | .other T :: _, _, h => simp at h

theorem LoadKey_identities_witness :
    LoadKey demoAgeMulti demoPassword (some (demoPassword, [4]))
        = .ret (some ⟨⟨[4]⟩⟩, none)
      ∧ LoadKey demoAgeMulti demoPassword (some (demoPassword, [2, 4]))
        = .ret (none, some (loadWrapErr (.new
            "only one identity per file is supported, found 2")))
      ∧ LoadKey demoAgeMulti demoPassword (some (demoPassword, [3]))
        = .ret (none, some (loadWrapErr (.new
            "only *age.X25519Identity are supported, got *plugin.Identity")))
      ∧ ∀ msg, LoadKey demoAgeMulti demoPassword (some (demoPassword, [])) ≠ .panic msg :=
  ⟨((LoadKey_identities demoAgeMulti demoAgeMulti_parse_nonempty demoPassword
        (some (demoPassword, [4]))).1 ⟨⟨[4]⟩⟩ none).2
      ⟨rfl, ⟨demoPassword⟩, [4], rfl, rfl, rfl⟩,
   (LoadKey_identities demoAgeMulti demoAgeMulti_parse_nonempty demoPassword
        (some (demoPassword, [2, 4]))).2.1 ⟨demoPassword⟩ [2, 4] _ rfl rfl rfl (by decide),
   (LoadKey_identities demoAgeMulti demoAgeMulti_parse_nonempty demoPassword
        (some (demoPassword, [3]))).2.2.1 ⟨demoPassword⟩ [3] _ rfl rfl rfl,
   (LoadKey_identities demoAgeMulti demoAgeMulti_parse_nonempty demoPassword
        (some (demoPassword, []))).2.2.2⟩

/-! ## Claims on the preferences -/

/-- C17: `IsValidHexColour(s)` is true exactly when `s` is empty or `s` has
    7 bytes, the first being `#` and the other six each being one of `0`-`9`,
    `A`-`F`, `a`-`f`. -/
theorem IsValidHexColour_iff (s : GoString) :
    IsValidHexColour s = true ↔
      s = [] ∨ (s.length = 7 ∧ s.head? = some 35 ∧ ∀ c ∈ s.tail, c ∈ hexDigits) := by
  by_cases hs : s = []
  · simp [IsValidHexColour, hs]
  · by_cases hl : s.length = 7
    · match s, hl with
      | [a, b, c, d, e, f, g], _ =>
        simp only [IsValidHexColour, hexColourLoop, List.getD, List.getElem?_cons_zero,
          List.getElem?_cons_succ, Option.getD_some]
        simp [← notHexDigit_eq_false]
    · simp [IsValidHexColour, hs, hl]

/-! ## Claims on the agent client -/

/-- C12: each session operation of the client makes one call under the
    Session extension whose payload is the action code of the operation
    followed by the body of the layout table: nothing for `Sessions`, the raw
    vault-name bytes for `Lock` (so `payload[1:]` is the vault name), and the
    JSON encoding of the session request for `Key` and `Unlock`; these two
    send nothing when the encoding fails. -/
theorem client_payloads (C : AgentConsts) (J : AgentJSON) (sshclient : ExtensionCall)
    (vaultName sessionID : GoString) (key : Option X25519Identity) (lifetime : Int) :
    (client.Sessions C J sshclient).2 = [⟨C.SessionExtension, [C.SessionActionList]⟩]
      ∧ (client.Lock C sshclient vaultName).2
          = [⟨C.SessionExtension, C.SessionActionLock :: vaultName⟩]
      ∧ (∀ s ∈ (client.Lock C sshclient vaultName).2, s.contents.tail = vaultName)
      ∧ (∀ payload, J.MarshalSession ⟨sessionID, vaultName, none, 0, 0⟩ = .ok payload →
          (client.Key C J sshclient vaultName sessionID).2
            = [⟨C.SessionExtension, C.SessionActionKey :: payload⟩])
      ∧ (∀ err, J.MarshalSession ⟨sessionID, vaultName, none, 0, 0⟩ = .error err →
          (client.Key C J sshclient vaultName sessionID).2 = [])
      ∧ (∀ payload, J.MarshalSession ⟨[], vaultName, key, 0, lifetime⟩ = .ok payload →
          (client.Unlock C J sshclient vaultName key lifetime).2
            = [⟨C.SessionExtension, C.SessionActionUnlock :: payload⟩])
      ∧ (∀ err, J.MarshalSession ⟨[], vaultName, key, 0, lifetime⟩ = .error err →
          (client.Unlock C J sshclient vaultName key lifetime).2 = []) := by
  have hlock : (client.Lock C sshclient vaultName).2
      = [⟨C.SessionExtension, C.SessionActionLock :: vaultName⟩] := by
    rcases h : sshclient C.SessionExtension (C.SessionActionLock :: vaultName)
      with ⟨response, _ | err⟩ <;> simp [client.Lock, h]
  refine ⟨?_, hlock, ?_, ?_, ?_, ?_, ?_⟩
  · rcases h : sshclient C.SessionExtension [C.SessionActionList]
      with ⟨response, _ | err⟩ <;> simp [client.Sessions, h]
  · intro s hs
    rw [hlock] at hs
    simp only [List.mem_singleton] at hs
    subst hs
    rfl
  · intro payload hp
    rcases h : sshclient C.SessionExtension (C.SessionActionKey :: payload)
      with ⟨response, _ | err⟩ <;> simp [client.Key, hp, h]
  · intro err hp
    simp [client.Key, hp]
  · intro payload hp
    rcases h : sshclient C.SessionExtension (C.SessionActionUnlock :: payload)
      with ⟨response, _ | err⟩ <;> simp [client.Unlock, hp, h]
  · intro err hp
    simp [client.Unlock, hp]

theorem client_payloads_witness :
    (client.Key demoConsts demoJSON demoExtension [118] [105]).2 = [⟨[115], [3, 118, 0, 105]⟩]
      ∧ (client.Unlock demoConsts demoJSON demoExtension [118] (some ⟨[7]⟩) 60).2
          = [⟨[115], [4, 118, 0]⟩] :=
  ⟨(client_payloads demoConsts demoJSON demoExtension [118] [105] none 0).2.2.2.1
      [118, 0, 105] rfl,
   (client_payloads demoConsts demoJSON demoExtension [118] [105] (some ⟨[7]⟩) 60).2.2.2.2.2.1
      [118, 0] rfl⟩

/-- C13: `client.Lock` returns nil exactly when the extension call
    succeeded.  With a client that returns a nil response with every error,
    as the client of `sshagent.NewClient` does, a failed `Lock` returns the
    error with the empty message: the error of the call and its text are
    dropped.  `client.Unlock` returns the error of the call itself. -/
theorem client_Lock_drops_error (C : AgentConsts) (sshclient : ExtensionCall)
    (vaultName : GoString)
    (hnil : ∀ t c r err, sshclient t c = (r, some err) → r = []) :
    ((client.Lock C sshclient vaultName).1 = none ↔
        (sshclient C.SessionExtension (C.SessionActionLock :: vaultName)).2 = none)
      ∧ (∀ err, (sshclient C.SessionExtension (C.SessionActionLock :: vaultName)).2
            = some err →
          (client.Lock C sshclient vaultName).1 = some ⟨[]⟩)
      ∧ ∀ (J : AgentJSON) key lifetime payload err,
          J.MarshalSession ⟨[], vaultName, key, 0, lifetime⟩ = .ok payload →
          (sshclient C.SessionExtension (C.SessionActionUnlock :: payload)).2 = some err →
          (client.Unlock C J sshclient vaultName key lifetime).1 = ([], some err) := by
  refine ⟨?_, ?_, ?_⟩
  · rcases h : sshclient C.SessionExtension (C.SessionActionLock :: vaultName)
      with ⟨response, _ | err⟩ <;> simp [client.Lock, h]
  · intro err herr
    rcases h : sshclient C.SessionExtension (C.SessionActionLock :: vaultName)
      with ⟨response, e⟩
    rw [h] at herr
    simp only at herr
    subst herr
    have hr := hnil _ _ _ _ h
    subst hr
    simp [client.Lock, h]
  · intro J key lifetime payload err hp herr
    rcases h : sshclient C.SessionExtension (C.SessionActionUnlock :: payload)
      with ⟨response, e⟩
    rw [h] at herr
    simp only at herr
    subst herr
    simp [client.Unlock, hp, h]

theorem client_Lock_drops_error_witness :
    (client.Lock demoConsts (sshagentExtension demoAgentReply) [118]).1 = some ⟨[]⟩ :=
  (client_Lock_drops_error demoConsts (sshagentExtension demoAgentReply) [118]
    (sshagentExtension_nil demoAgentReply)).2.1
    (.new "agent: generic extension failure") rfl

/-! ## Claims on the session manager -/

/-- C14: after `Lock(v)` no session whose vault is `v` is returned by
    `Sessions()`, and `Key(v, S)` fails with the session-not-found error for
    every session id `S`, among them the id issued by an earlier
    `Unlock(v, k, t)`; the sessions of every other vault are listed and looked
    up as before. -/
theorem Lock_revokes (st : SessionStore) (v : GoString) (now : Nat) :
    (∀ p ∈ (st.Lock v).Sessions now, p.2 ≠ v)
      ∧ (∀ S, (st.Lock v).Key v S now = .error sessionNotFound)
      ∧ (∀ (k : Usm.Key) (t now₀ : Nat),
          ((st.Unlock v k t now₀).2.Lock v).Key v (st.Unlock v k t now₀).1 now
            = .error sessionNotFound)
      ∧ (∀ w, w ≠ v →
          ((st.Lock v).Sessions now).filter (fun p => p.2 == w)
              = (st.Sessions now).filter (fun p => p.2 == w)
            ∧ ∀ S, (st.Lock v).Key w S now = st.Key w S now) := by
  have hkey : ∀ (st : SessionStore) S, (st.Lock v).Key v S now = .error sessionNotFound := by
    intro st S
    simp only [SessionStore.Key, SessionStore.Lock, find_after_Lock_same]
  refine ⟨?_, hkey st, ?_, ?_⟩
  · intro p hp
    simp only [SessionStore.Sessions, SessionStore.Lock, List.mem_map, List.mem_filter] at hp
    obtain ⟨s, ⟨⟨_, hv⟩, _⟩, rfl⟩ := hp
    simpa using hv
  · intro k t now₀
    exact hkey _ _
  · intro w hw
    constructor
    · simp only [SessionStore.Sessions, SessionStore.Lock]
      exact sessions_after_Lock_other st.sessions v w hw now
    · intro S
      simp only [SessionStore.Key, SessionStore.Lock, find_after_Lock_other _ v w hw]

/-! ## Claims on `hibp` -/

/-- C15: the request `hibp` sends is a GET of `apiURL` followed by the first
    5 characters of the upper-case hex SHA-1 of the password, with the header
    `Add-Padding: true`; nothing else in it derives from the password, so two
    passwords whose digests share the first 5 hex characters produce the same
    request.  With a nil context no request is sent. -/
theorem hibp_request_first_five (H : Sha1) (spare : Nat → List Byte) (ctx : Context)
    (c : Request → Except GoError Response) (password : GoString) :
    (hibp H spare (some ctx) c password).sent
        = [⟨"GET", apiURL ++ (passwordHashUpper H password).take 5,
            [("Add-Padding", "true")], ctx⟩]
      ∧ ((passwordHashUpper H password).take 5).length = 5
      ∧ (∀ password₂, (passwordHashUpper H password).take 5
            = (passwordHashUpper H password₂).take 5 →
          (hibp H spare (some ctx) c password).sent
            = (hibp H spare (some ctx) c password₂).sent)
      ∧ (hibp H spare none c password).sent = [] := by
  refine ⟨hibp_sent H spare ctx c password, ?_, ?_, ?_⟩
  · simp [passwordHashUpper_length]
  · intro password₂ h
    rw [hibp_sent, hibp_sent, h]
  · simp [hibp, H.write_nil, NewRequestWithContext]

theorem hibp_request_first_five_witness :
    (hibp demoSha1 (fun _ => []) (some ⟨0⟩) demoPwned [1, 2, 3, 4]).sent
      = (hibp demoSha1 (fun _ => []) (some ⟨0⟩) demoPwned [1, 2, 3, 5]).sent :=
  (hibp_request_first_five demoSha1 (fun _ => []) ⟨0⟩ demoPwned [1, 2, 3, 4]).2.2.1 [1, 2, 3, 5]
    (by decide)

set_option maxRecDepth 100000 in
/-- C16, as stated, fails: for a matching line of the stated form whose count
    is 9223372036854775808, `strconv.Atoi` reports a range error, and `hibp`
    returns `true`, the largest `int` and that error. -/
theorem hibp_count_out_of_range :
    RangeEntry demoBigEntry
      ∧ demoPwnedBig ⟨"GET", apiURL ++ (passwordHashUpper demoSha1 [0, 0, 0]).take 5,
          [("Add-Padding", "true")], ⟨0⟩⟩ = .ok ⟨rangeBody [13, 10] [demoBigEntry], none⟩
      ∧ demoBigEntry.1 = (passwordHashUpper demoSha1 [0, 0, 0]).drop 5
      ∧ decimalValue demoBigEntry.2 = 9223372036854775808
      ∧ (hibp demoSha1 (fun _ => []) (some ⟨0⟩) demoPwnedBig [0, 0, 0]).out
          = .ret (true, 9223372036854775807,
              some (.wrap "strconv.Atoi: parsing: value out of range"
                (.new "value out of range"))) := by
  refine ⟨by decide, rfl, by decide, by decide, by decide⟩

/-- C16, amended: for a response body made of lines `<35 upper-case hex
    characters>:<decimal count>`, each closed by `\n` or `\r\n` (the line ends
    may differ from line to line and the last line may stand without one),
    each shorter than the scanner's buffer and with a count below 2^63, `hibp`
    returns `(true, n, nil)` if the suffix of some line equals characters 5..39
    of the upper-case hex SHA-1 of the password, `n` being the count of the
    first such line, and `(false, 0, nil)` if no line matches. -/
theorem hibp_range_lookup (H : Sha1) (spare : Nat → List Byte) (ctx : Context)
    (c : Request → Except GoError Response) (password : GoString)
    (entries : List ((List Byte × List Byte) × List Byte))
    (hends : lineEnds (entries.map (fun e => e.2)) = true)
    (hform : ∀ e ∈ entries, RangeEntry e.1)
    (hval : ∀ e ∈ entries, decimalValue e.1.2 < 2 ^ 63)
    (hfit : ∀ e ∈ entries, (rangeLine e.1).length + (e.2.length - 1) < maxScanTokenSize)
    (hresp : c ⟨"GET", apiURL ++ (passwordHashUpper H password).take 5,
        [("Add-Padding", "true")], ctx⟩ = .ok ⟨rangeBodyEnds entries, none⟩) :
    (hibp H spare (some ctx) c password).out
      = match (entries.map (fun e => e.1)).find?
            (fun e => e.1 == (passwordHashUpper H password).drop 5) with
        | some e => .ret (true, (decimalValue e.2 : Int), none)
        | none => .ret (false, 0, none) := by
  have hform2 : ∀ e ∈ entries.map (fun e => e.1), RangeEntry e := by
    intro e he
    obtain ⟨x, hx, rfl⟩ := List.mem_map.1 he
    exact hform x hx
  have hval2 : ∀ e ∈ entries.map (fun e => e.1), decimalValue e.2 < 2 ^ 63 := by
    intro e he
    obtain ⟨x, hx, rfl⟩ := List.mem_map.1 he
    exact hval x hx
  unfold hibp
  simp only [H.write_nil, NewRequestWithContext, List.nil_append, hresp,
    scanLines_rangeBodyEnds entries none hform hends hfit]
  exact hibpScan_entries _ spare none (entries.map (fun e => e.1)) 0 hform2 hval2

set_option maxRecDepth 100000 in
theorem hibp_range_lookup_witness :
    (hibp demoSha1 (fun _ => [1, 2, 3]) (some ⟨0⟩) demoPwnedMixed (List.replicate 20 34)).out
      = .ret (true, 3, none) :=
  hibp_range_lookup demoSha1 (fun _ => [1, 2, 3]) ⟨0⟩ demoPwnedMixed (List.replicate 20 34)
    demoEntriesMixed (by decide) (by decide) (by decide) (by decide) rfl

/-! ## Claims on the configuration manager -/

set_option maxRecDepth 100000 in
/-- C18, as stated, fails: the preferences `demoPrefsBadString` have integer
    fields that are exactly representable, `StoreAppState` succeeds, and
    `LoadAppState` returns other preferences, because `json.Marshal` replaces
    the invalid byte of the theme colour by U+FFFD. -/
theorem preferences_roundtrip_invalid_utf8 :
    demoPrefsBadString.IntsExact
      ∧ (Manager.StoreAppState demoStore [] ⟨0, some demoPrefsBadString⟩).1 = none
      ∧ Manager.LoadAppState demoUsmConsts "linux" demoStore 0
          (Manager.StoreAppState demoStore [] ⟨0, some demoPrefsBadString⟩).2
        = .ok ⟨0, some { demoPrefs with Theme := ⟨[239, 191, 189]⟩ }⟩
      ∧ Manager.extractPreferences demoUsmConsts "linux"
          (jsonUnmarshalFields (jsonMarshalFields (Manager.preferencesToMap demoPrefsBadString)))
        ≠ demoPrefsBadString := by
  refine ⟨by decide, by decide, rfl, by decide⟩

/-- C18, amended: for preferences whose integer fields are exactly
    representable as JSON numbers and whose string fields are valid UTF-8, a
    successful `StoreAppState` followed by `LoadAppState` returns preferences
    equal field for field to the stored ones: `extractPreferences` applied to
    the JSON-decoded output of `preferencesToMap` is the identity, zero and
    false values included. -/
theorem preferences_store_load {σ : Type} (K : UsmConsts) (goos : String) (V : Viracochan σ)
    (hV : StoreKeeps V) (now m : Int) (s s₁ : σ) (p : Preferences)
    (hint : p.IntsExact) (hstr : p.StringsValid)
    (hstore : Manager.StoreAppState V s ⟨m, some p⟩ = (none, s₁)) :
    (∃ t, Manager.LoadAppState K goos V now s₁ = .ok ⟨t, some p⟩)
      ∧ Manager.extractPreferences K goos
          (jsonUnmarshalFields (jsonMarshalFields (Manager.preferencesToMap p))) = p := by
  have hx := extract_roundtrip K goos p hint hstr
  obtain ⟨t, ht⟩ := LoadAppState_after_Store K goos V hV now m s s₁ p hstore
  rw [hx] at ht
  exact ⟨⟨t, ht⟩, hx⟩

set_option maxRecDepth 100000 in
theorem preferences_store_load_witness :
    (∃ t, Manager.LoadAppState demoUsmConsts "darwin" demoStore 9
        [⟨jsonMarshal (.map (Manager.appStateToContent ⟨0, some demoPrefs⟩)), 0⟩]
          = .ok ⟨t, some demoPrefs⟩)
      ∧ Manager.extractPreferences demoUsmConsts "darwin"
          (jsonUnmarshalFields (jsonMarshalFields (Manager.preferencesToMap demoPrefs)))
        = demoPrefs :=
  preferences_store_load demoUsmConsts "darwin" demoStore demoStore_keeps 9 0 []
    [⟨jsonMarshal (.map (Manager.appStateToContent ⟨0, some demoPrefs⟩)), 0⟩] demoPrefs
    (by decide) (by decide) rfl

/-- C19: when no versioned configuration exists (`GetLatest` fails),
    `LoadAppState` returns no error and a state whose preferences are non-nil
    and are the default preferences of the manager: favicon downloader not
    disabled, lengths, format and TOTP values equal to the constants of package
    `usm`, empty theme colour; likewise stored content without a `preferences`
    object is loaded as the default preferences. -/
theorem LoadAppState_default {σ : Type} (K : UsmConsts) (goos : String) (V : Viracochan σ)
    (now : Int) (s : σ) :
    (∀ e, V.GetLatest s = .error e →
        Manager.LoadAppState K goos V now s
          = .ok ⟨now, some (Manager.newDefaultPreferences K goos)⟩)
      ∧ (∀ cfg m, V.GetLatest s = .ok cfg → cfg.Content = .map m →
          (m.get "preferences").asMap = none →
          Manager.LoadAppState K goos V now s
            = .ok ⟨cfg.Time, some (Manager.newDefaultPreferences K goos)⟩)
      ∧ (Manager.newDefaultPreferences K goos).FaviconDownloader.Disabled = false
      ∧ (Manager.newDefaultPreferences K goos).Password.Passphrase
          = ⟨K.PassphrasePasswordDefaultLength, K.PassphrasePasswordMaxLength,
              K.PassphrasePasswordMinLength⟩
      ∧ (Manager.newDefaultPreferences K goos).Password.Pin
          = ⟨K.PinPasswordDefaultLength, K.PinPasswordMaxLength, K.PinPasswordMinLength⟩
      ∧ (Manager.newDefaultPreferences K goos).Password.Random
          = ⟨K.RandomPasswordDefaultLength, K.RandomPasswordDefaultFormat,
              K.RandomPasswordMaxLength, K.RandomPasswordMinLength⟩
      ∧ (Manager.newDefaultPreferences K goos).TOTP
          = ⟨K.TOTPDigitsDefault, K.TOTPHashDefault, K.TOTPIntervalDefault⟩
      ∧ (Manager.newDefaultPreferences K goos).Theme.DefaultColour = [] := by
  refine ⟨?_, ?_, rfl, rfl, rfl, rfl, rfl, rfl⟩
  · intro e he
    simp [Manager.LoadAppState, he]
  · intro cfg m hg hc hm
    have h2 : ((jsonUnmarshalFields m).get "preferences").asMap = none := by
      rw [jsonUnmarshalFields_get]
      exact jsonUnmarshal_asMap_none _ hm
    simp [Manager.LoadAppState, hg, hc, jsonUnmarshalMap, Manager.extractAppState, h2]

theorem LoadAppState_default_witness :
    Manager.LoadAppState demoUsmConsts "linux" demoStore 9 []
        = .ok ⟨9, some (Manager.newDefaultPreferences demoUsmConsts "linux")⟩
      ∧ Manager.LoadAppState demoUsmConsts "linux" demoStore 9
          [⟨.map (.cons "preferences" (.string [120]) .nil), 5⟩]
        = .ok ⟨5, some (Manager.newDefaultPreferences demoUsmConsts "linux")⟩ :=
  ⟨(LoadAppState_default demoUsmConsts "linux" demoStore 9 []).1 _ rfl,
   (LoadAppState_default demoUsmConsts "linux" demoStore 9
      [⟨.map (.cons "preferences" (.string [120]) .nil), 5⟩]).2.1 _ _ rfl rfl rfl⟩

set_option maxRecDepth 100000 in
/-- C20, as stated, fails: the legacy file read as `demoPrefsBigInt` holds
    9007199254740993 TOTP digits, no versioned configuration exists, the
    migration succeeds, and the following `LoadAppState` returns
    9007199254740992 digits, the nearest `float64`; and with a failing rename
    the migration still succeeds while the legacy file stays in place. -/
theorem migration_big_int :
    demoUnmarshalAppState [2] = .ok ⟨1704067200, some demoPrefsBigInt⟩
      ∧ (Manager.configExists demoStore []).1 = false
      ∧ (StorageAdapter.MigrateExistingConfig demoUsmConsts "linux" demoStore
          demoUnmarshalAppState none none [] ⟨some [2], none⟩).err = none
      ∧ Manager.LoadAppState demoUsmConsts "linux" demoStore 0
          (StorageAdapter.MigrateExistingConfig demoUsmConsts "linux" demoStore
            demoUnmarshalAppState none none [] ⟨some [2], none⟩).store
        = .ok ⟨0, some { demoPrefs with TOTP := ⟨9007199254740992, [], 0⟩ }⟩
      ∧ demoPrefsBigInt ≠ { demoPrefs with TOTP := ⟨9007199254740992, [], 0⟩ }
      ∧ (StorageAdapter.MigrateExistingConfig demoUsmConsts "linux" demoStore
          demoUnmarshalAppState none (some (.new "permission denied")) []
            ⟨some [1], none⟩).err = none
      ∧ (StorageAdapter.MigrateExistingConfig demoUsmConsts "linux" demoStore
          demoUnmarshalAppState none (some (.new "permission denied")) []
            ⟨some [1], none⟩).dir = ⟨some [1], none⟩ := by
  refine ⟨rfl, by decide, by decide, rfl, by decide, by decide, by decide⟩

/-- C20, amended: for a legacy `usm.json` that parses as an `AppState` with
    preferences `P` whose integer fields are exactly representable as JSON
    numbers (its strings are valid UTF-8, as every string read from JSON is),
    when no versioned configuration exists yet and the storage accepts the new
    version, `MigrateExistingConfig` succeeds, the following `LoadAppState`
    returns preferences equal to `P`, and the legacy file is moved to
    `usm.json.backup` when the rename succeeds; when a versioned configuration
    already exists, the migration succeeds, leaves the versioned storage as it
    is and moves the legacy file likewise. -/
theorem MigrateExistingConfig_migrates {σ : Type} (K : UsmConsts) (goos : String)
    (V : Viracochan σ) (hV : StoreKeeps V)
    (UnmarshalAppState : List Byte → Except GoError AppState)
    (renameFault : Option GoError) (now : Int) (s : σ) (data : List Byte)
    (backup : Option (List Byte)) :
    (∀ (P : Preferences) (m : Int) (e : GoError) (s₁ : σ),
        UnmarshalAppState data = .ok ⟨m, some P⟩ → P.IntsExact → P.StringsValid →
        V.GetLatest s = .error e →
        V.Create s (Manager.appStateToContent ⟨m, some P⟩) = (none, s₁) →
        (StorageAdapter.MigrateExistingConfig K goos V UnmarshalAppState none renameFault s
            ⟨some data, backup⟩).err = none
          ∧ (StorageAdapter.MigrateExistingConfig K goos V UnmarshalAppState none renameFault s
            ⟨some data, backup⟩).store = s₁
          ∧ (∃ t, Manager.LoadAppState K goos V now s₁ = .ok ⟨t, some P⟩)
          ∧ (renameFault = none →
              (StorageAdapter.MigrateExistingConfig K goos V UnmarshalAppState none renameFault s
                ⟨some data, backup⟩).dir = ⟨none, some data⟩))
      ∧ (∀ cfg, V.GetLatest s = .ok cfg →
        (StorageAdapter.MigrateExistingConfig K goos V UnmarshalAppState none renameFault s
            ⟨some data, backup⟩).err = none
          ∧ (StorageAdapter.MigrateExistingConfig K goos V UnmarshalAppState none renameFault s
            ⟨some data, backup⟩).store = s
          ∧ (renameFault = none →
              (StorageAdapter.MigrateExistingConfig K goos V UnmarshalAppState none renameFault s
                ⟨some data, backup⟩).dir = ⟨none, some data⟩)) := by
  constructor
  · intro P m e s₁ hparse hint hstr hg hc
    have hstore : Manager.StoreAppState V s ⟨m, some P⟩ = (none, s₁) := by
      simp [Manager.StoreAppState, Manager.configExists, hg, hc]
    have hmig : StorageAdapter.MigrateExistingConfig K goos V UnmarshalAppState none
        renameFault s ⟨some data, backup⟩
          = ⟨none, s₁, (osRename renameFault ⟨some data, backup⟩).2⟩ := by
      simp [StorageAdapter.MigrateExistingConfig, osReadFile, Manager.configExists, hg, hparse,
        hstore]
    rw [hmig]
    refine ⟨rfl, rfl, (preferences_store_load K goos V hV now m s s₁ P hint hstr hstore).1, ?_⟩
    intro hr
    simp [hr, osRename]
  · intro cfg hg
    have hmig : StorageAdapter.MigrateExistingConfig K goos V UnmarshalAppState none
        renameFault s ⟨some data, backup⟩
          = ⟨none, s, (osRename renameFault ⟨some data, backup⟩).2⟩ := by
      simp [StorageAdapter.MigrateExistingConfig, osReadFile, Manager.configExists, hg]
    rw [hmig]
    refine ⟨rfl, rfl, ?_⟩
    intro hr
    simp [hr, osRename]

set_option maxRecDepth 100000 in
theorem MigrateExistingConfig_migrates_witness :
    (StorageAdapter.MigrateExistingConfig demoUsmConsts "linux" demoStore
        demoUnmarshalAppState none none [] ⟨some [1], none⟩).err = none
      ∧ (StorageAdapter.MigrateExistingConfig demoUsmConsts "linux" demoStore
        demoUnmarshalAppState none none [] ⟨some [1], none⟩).store
          = [⟨jsonMarshal (.map (Manager.appStateToContent ⟨1704067200, some demoPrefs⟩)), 0⟩]
      ∧ (∃ t, Manager.LoadAppState demoUsmConsts "linux" demoStore 9
          [⟨jsonMarshal (.map (Manager.appStateToContent ⟨1704067200, some demoPrefs⟩)), 0⟩]
            = .ok ⟨t, some demoPrefs⟩)
      ∧ ((none : Option GoError) = none →
          (StorageAdapter.MigrateExistingConfig demoUsmConsts "linux" demoStore
            demoUnmarshalAppState none none [] ⟨some [1], none⟩).dir = ⟨none, some [1]⟩) :=
  (MigrateExistingConfig_migrates demoUsmConsts "linux" demoStore demoStore_keeps
    demoUnmarshalAppState none 9 [] [1] none).1 demoPrefs 1704067200
    (.new "config not found")
    [⟨jsonMarshal (.map (Manager.appStateToContent ⟨1704067200, some demoPrefs⟩)), 0⟩]
    rfl (by decide) (by decide) rfl rfl

/-! ## Claims on the browser messaging -/

/-- C21: for a request whose `Action` differs from `ListVaultAction`, `Serve`
    sets `res.Error` to an `ActionHandlerMismatchError` carrying the action of
    the request and the action of the handler, does not call the storage (a nil
    storage included), and leaves `res.Action` and `res.Payload` unchanged. -/
theorem Serve_mismatch (ListVaultAction : Nat) (Storage : messaging.Storage)
    (res : messaging.Response) (req : messaging.Request)
    (h : req.Action ≠ ListVaultAction) :
    ListVaultHandler.Serve ListVaultAction Storage res req
      = ⟨.ret ⟨res.Action,
          some (.ActionHandlerMismatchError req.Action ListVaultAction), res.Payload⟩, 0⟩ := by
  simp [ListVaultHandler.Serve, h]

theorem Serve_mismatch_witness :
    ListVaultHandler.Serve 1 none ⟨7, none, some (.other [1])⟩ ⟨0⟩
      = ⟨.ret ⟨7, some (.ActionHandlerMismatchError 0 1), some (.other [1])⟩, 0⟩ :=
  Serve_mismatch 1 none ⟨7, none, some (.other [1])⟩ ⟨0⟩ (by decide)

/-- C22: for a request with `Action == ListVaultAction` and a response
    without error: if `Vaults()` returns `(vs, nil)`, the response after
    `Serve` has the action of the request, a nil `Error` and a
    `ListVaultHandlerResponsePayload` whose `Vaults` are `vs`, in the same
    order; if `Vaults()` returns an error `e`, `res.Error` is `e` and the
    payload is left as it was.  `Serve` itself never clears `res.Error`. -/
theorem Serve_valid (ListVaultAction : Nat) (res : messaging.Response)
    (req : messaging.Request) (vs : List GoString)
    (h : req.Action = ListVaultAction) (hres : res.Error = none) :
    ListVaultHandler.Serve ListVaultAction (some (vs, none)) res req
        = ⟨.ret ⟨req.Action, none, some (.ListVaultHandlerResponsePayload vs)⟩, 1⟩
      ∧ (∀ res₀ : messaging.Response,
          ListVaultHandler.Serve ListVaultAction (some (vs, none)) res₀ req
            = ⟨.ret ⟨req.Action, res₀.Error,
                some (.ListVaultHandlerResponsePayload vs)⟩, 1⟩)
      ∧ ∀ e, ListVaultHandler.Serve ListVaultAction (some (vs, some e)) res req
          = ⟨.ret ⟨req.Action, some (.storage e), res.Payload⟩, 1⟩ := by
  refine ⟨?_, ?_, ?_⟩
  · simp [ListVaultHandler.Serve, h, hres]
  · intro res₀
    simp [ListVaultHandler.Serve, h]
  · intro e
    simp [ListVaultHandler.Serve, h]

theorem Serve_valid_witness :
    ListVaultHandler.Serve 1 (some ([[118, 49], [118, 50]], none)) ⟨0, none, none⟩ ⟨1⟩
      = ⟨.ret ⟨1, none, some (.ListVaultHandlerResponsePayload [[118, 49], [118, 50]])⟩, 1⟩ :=
  (Serve_valid 1 ⟨0, none, none⟩ ⟨1⟩ [[118, 49], [118, 50]] rfl rfl).1

/-! ## Claims on the default preferences -/

/-- C23: the default preferences of the configuration manager differ from
    those of package `usm` on every operating system: all fields agree except
    `Toolbar.Show`, which package `usm` sets to false on macOS and true
    elsewhere and the manager sets the other way round. -/
theorem newDefaultPreferences_toolbar (K : UsmConsts) (goos : String) :
    Manager.newDefaultPreferences K goos ≠ newDefaultPreferences K goos
      ∧ (Manager.newDefaultPreferences K goos).Toolbar.Show
          = !(newDefaultPreferences K goos).Toolbar.Show
      ∧ (newDefaultPreferences K goos).Toolbar.Show = decide (goos ≠ "darwin")
      ∧ (Manager.newDefaultPreferences K goos).Toolbar.Show = decide (goos = "darwin")
      ∧ { Manager.newDefaultPreferences K goos with
            Toolbar := (newDefaultPreferences K goos).Toolbar }
          = newDefaultPreferences K goos := by
  have hshow : (Manager.newDefaultPreferences K goos).Toolbar.Show
      = !(newDefaultPreferences K goos).Toolbar.Show := by
    simp [Manager.newDefaultPreferences, newDefaultPreferences]
  refine ⟨?_, hshow, rfl, rfl, rfl⟩
  intro heq
  rw [heq] at hshow
  cases hb : (newDefaultPreferences K goos).Toolbar.Show <;> simp [hb] at hshow

/-! ## Claims on the UI colours -/

/-- C24: `convertColorToNRGBA` returns its argument for a colour of dynamic
    type `color.NRGBA` only; on a nil colour and on a colour of any other
    dynamic type, such as a `color.RGBA` of a theme, the type assertion
    panics. -/
theorem convertColorToNRGBA_panics :
    convertColorToNRGBA none
        = .panic "interface conversion: interface is nil, not color.NRGBA"
      ∧ convertColorToNRGBA (some (.other "color.RGBA"))
        = .panic "interface conversion: color.Color is color.RGBA, not color.NRGBA"
      ∧ (∀ col, (∃ c, convertColorToNRGBA col = .ret c) ↔ ∃ c, col = some (.NRGBA c))
      ∧ ∀ c, convertColorToNRGBA (some (.NRGBA c)) = .ret c := by
  refine ⟨rfl, by decide, ?_, fun _ => rfl⟩
  intro col
  constructor
  · rintro ⟨c, hc⟩
    match col, hc with
    | some (.NRGBA c₀), _ => exact ⟨c₀, rfl⟩
    | some (.other t), hc => simp [convertColorToNRGBA] at hc
    | none, hc => simp [convertColorToNRGBA] at hc
  · rintro ⟨c, rfl⟩
    exact ⟨c, rfl⟩

/-- C27: `parseHexColour s` is non-nil exactly when `s` is non-empty and
    `IsValidHexColour s` holds; the result is then the `color.NRGBA` whose
    `R`, `G`, `B` are the values of the hex pairs `s[1:3]`, `s[3:5]`, `s[5:7]`
    and whose `A` is 255, and `convertColorToNRGBA` returns it without a
    panic. -/
theorem parseHexColour_iff (s : GoString) :
    (parseHexColour s ≠ none ↔ s ≠ [] ∧ IsValidHexColour s = true)
      ∧ (s ≠ [] ∧ IsValidHexColour s = true →
          ∃ c, parseHexColour s = some (.NRGBA c)
            ∧ c.R.val = 16 * hexVal (s.getD 1 0) + hexVal (s.getD 2 0)
            ∧ c.G.val = 16 * hexVal (s.getD 3 0) + hexVal (s.getD 4 0)
            ∧ c.B.val = 16 * hexVal (s.getD 5 0) + hexVal (s.getD 6 0)
            ∧ c.A = 255
            ∧ convertColorToNRGBA (parseHexColour s) = .ret c) := by
  by_cases hl : s.length = 7
  · match s, hl with
    | [a, b, c, d, e, f, g], _ =>
      rw [parseHexColour_seven, IsValidHexColour_seven]
      constructor
      · constructor
        · intro h
          refine ⟨by simp, ?_⟩
          by_contra hn
          exact h (if_neg hn)
        · rintro ⟨-, hv⟩
          rw [if_pos hv]
          simp
      · rintro ⟨-, hv⟩
        rw [if_pos hv]
        obtain ⟨-, hb, hc, hd, he, hf, hg⟩ := hv
        have hb2 := (digitVal_hex b hb).2
        have hc2 := (digitVal_hex c hc).2
        have hd2 := (digitVal_hex d hd).2
        have he2 := (digitVal_hex e he).2
        have hf2 := (digitVal_hex f hf).2
        have hg2 := (digitVal_hex g hg).2
        refine ⟨⟨hexPair b c, hexPair d e, hexPair f g, 255⟩, rfl, ?_, ?_, ?_, rfl, rfl⟩
        · show (hexPair b c).val = 16 * hexVal b + hexVal c
          simp only [hexPair, Fin.ofNat]
          omega
        · show (hexPair d e).val = 16 * hexVal d + hexVal e
          simp only [hexPair, Fin.ofNat]
          omega
        · show (hexPair f g).val = 16 * hexVal f + hexVal g
          simp only [hexPair, Fin.ofNat]
          omega
  · have hp : parseHexColour s = none := by simp [parseHexColour, hl]
    have hv : IsValidHexColour s = true ↔ s = [] := by
      by_cases hs : s = []
      · simp [IsValidHexColour, hs]
      · simp [IsValidHexColour, hs, hl]
    constructor
    · rw [hp, hv]
      simp
    · rintro ⟨hne, hval⟩
      exact absurd (hv.1 hval) hne

theorem parseHexColour_iff_witness :
    ∃ c, parseHexColour [35, 50, 49, 57, 54, 70, 51] = some (.NRGBA c)
      ∧ c.R.val = 16 * hexVal (([35, 50, 49, 57, 54, 70, 51] : GoString).getD 1 0)
          + hexVal (([35, 50, 49, 57, 54, 70, 51] : GoString).getD 2 0)
      ∧ c.G.val = 16 * hexVal (([35, 50, 49, 57, 54, 70, 51] : GoString).getD 3 0)
          + hexVal (([35, 50, 49, 57, 54, 70, 51] : GoString).getD 4 0)
      ∧ c.B.val = 16 * hexVal (([35, 50, 49, 57, 54, 70, 51] : GoString).getD 5 0)
          + hexVal (([35, 50, 49, 57, 54, 70, 51] : GoString).getD 6 0)
      ∧ c.A = 255
      ∧ convertColorToNRGBA (parseHexColour [35, 50, 49, 57, 54, 70, 51]) = .ret c :=
  (parseHexColour_iff [35, 50, 49, 57, 54, 70, 51]).2 ⟨by decide, by decide⟩

/-! ## Claims on the errors of `MakeKey` -/

/-- C25: when `age.Encrypt`, the write of the identity data or the closing of
    the encryption writer fails with an error `E` and the deferred close of the
    armor writer succeeds, `MakeKey` returns a nil key and the error
    `usm: makekey error: %!w(<nil>)`, which wraps nothing: `errors.Unwrap`
    gives nil, not `E`.  An error of `age.GenerateX25519Identity` or of
    `age.NewScryptRecipient` is wrapped as claimed. -/
theorem MakeKey_step_error_not_wrapped {β τ : Type} (L : AgeLib β τ) (id : X25519Identity)
    (now password : GoString) (w w₁ : β) (rcp : ScryptRecipient) (E : GoError)
    (hr : L.NewScryptRecipient password = .ok rcp)
    (hfail :
      (∃ a₁, L.Encrypt (L.armorNewWriter w) rcp = (some E, a₁) ∧ L.armorClose a₁ = (none, w₁))
      ∨ (∃ a₁ a₂, L.Encrypt (L.armorNewWriter w) rcp = (none, a₁)
          ∧ L.Write a₁ (keyFileData L now id) = (some E, a₂) ∧ L.armorClose a₂ = (none, w₁))
      ∨ (∃ a₁ a₂ a₃, L.Encrypt (L.armorNewWriter w) rcp = (none, a₁)
          ∧ L.Write a₁ (keyFileData L now id) = (none, a₂) ∧ L.Close a₂ = (some E, a₃)
          ∧ L.armorClose a₃ = (none, w₁))) :
    MakeKey L (.ok id) now password w
        = ⟨none, some (.new "usm: makekey error: %!w(<nil>)"), w₁⟩
      ∧ ((MakeKey L (.ok id) now password w).err.bind GoError.Unwrap) = none
      ∧ ((MakeKey L (.ok id) now password w).err.bind GoError.Unwrap) ≠ some E
      ∧ (∀ G, (MakeKey L (.error G) now password w).err.bind GoError.Unwrap = some G)
      ∧ ∀ G p, L.NewScryptRecipient p = .error G →
          (MakeKey L (.ok id) now p w).err.bind GoError.Unwrap = some G := by
  have hm : MakeKey L (.ok id) now password w
      = ⟨none, some (.new "usm: makekey error: %!w(<nil>)"), w₁⟩ := by
    rcases hfail with ⟨a₁, he, hc⟩ | ⟨a₁, a₂, he, hw, hc⟩ | ⟨a₁, a₂, a₃, he, hw, hcl, hc⟩
    · simp only [MakeKey, hr, makeKeyBody, he, hc]
      rfl
    · simp only [MakeKey, hr, makeKeyBody, he, hw, hc]
      rfl
    · simp only [MakeKey, hr, makeKeyBody, he, hw, hcl, hc]
      rfl
  refine ⟨hm, ?_, ?_, ?_, ?_⟩
  · rw [hm]
    rfl
  · rw [hm]
    simp [GoError.Unwrap]
  · intro G
    simp [MakeKey, makeWrapErr, errorfW, GoError.Unwrap]
  · intro G p hp
    simp [MakeKey, hp, makeWrapErr, errorfW, GoError.Unwrap]

theorem MakeKey_step_error_not_wrapped_witness :
    MakeKey (demoAgeFailing 1) (.ok demoKey.ageIdentity) demoNow demoPassword none
        = ⟨none, some (.new "usm: makekey error: %!w(<nil>)"), some (demoPassword, [])⟩
      ∧ ((MakeKey (demoAgeFailing 1) (.ok demoKey.ageIdentity) demoNow demoPassword
            none).err.bind GoError.Unwrap) ≠ some demoWriterErr :=
  have h := MakeKey_step_error_not_wrapped (demoAgeFailing 1) demoKey.ageIdentity demoNow
    demoPassword none (some (demoPassword, [])) ⟨demoPassword⟩ demoWriterErr rfl
    (Or.inr (Or.inl ⟨⟨some demoPassword, [], none⟩, ⟨some demoPassword, [], none⟩,
      rfl, rfl, rfl⟩))
  ⟨h.1, h.2.2.1⟩

/-- C26: when `age.Encrypt`, the write and the closing of the encryption
    writer succeed and the deferred `a.Close()` fails with `E`, `MakeKey`
    returns the non-nil key together with the non-nil error that wraps `E`. -/
theorem MakeKey_key_with_error {β τ : Type} (L : AgeLib β τ) (id : X25519Identity)
    (now password : GoString) (w w₁ : β) (rcp : ScryptRecipient) (E : GoError) (a₁ a₂ a₃ : τ)
    (hr : L.NewScryptRecipient password = .ok rcp)
    (he : L.Encrypt (L.armorNewWriter w) rcp = (none, a₁))
    (hw : L.Write a₁ (keyFileData L now id) = (none, a₂))
    (hcl : L.Close a₂ = (none, a₃))
    (hc : L.armorClose a₃ = (some E, w₁)) :
    MakeKey L (.ok id) now password w = ⟨some ⟨id⟩, some (makeWrapErr (some E)), w₁⟩
      ∧ (MakeKey L (.ok id) now password w).key ≠ none
      ∧ (MakeKey L (.ok id) now password w).err ≠ none
      ∧ (MakeKey L (.ok id) now password w).err.bind GoError.Unwrap = some E := by
  have hm : MakeKey L (.ok id) now password w
      = ⟨some ⟨id⟩, some (makeWrapErr (some E)), w₁⟩ := by
    simp only [MakeKey, hr, makeKeyBody, he, hw, hcl, hc]
  refine ⟨hm, ?_, ?_, ?_⟩
  · rw [hm]
    simp
  · rw [hm]
    simp
  · rw [hm]
    simp [makeWrapErr, errorfW, GoError.Unwrap]

theorem MakeKey_key_with_error_witness :
    (MakeKey (demoAgeFailing 3) (.ok demoKey.ageIdentity) demoNow demoPassword none).key
        ≠ none
      ∧ (MakeKey (demoAgeFailing 3) (.ok demoKey.ageIdentity) demoNow demoPassword none).err
        ≠ none :=
  have h := MakeKey_key_with_error (demoAgeFailing 3) demoKey.ageIdentity demoNow
    demoPassword none none ⟨demoPassword⟩ demoWriterErr
    ⟨some demoPassword, [], none⟩
    ⟨some demoPassword, keyFileData (demoAgeFailing 3) demoNow demoKey.ageIdentity, none⟩
    ⟨some demoPassword, keyFileData (demoAgeFailing 3) demoNow demoKey.ageIdentity, none⟩
    rfl rfl rfl rfl rfl
  ⟨h.2.1, h.2.2.1⟩

/-! ## Claims on the slices of `hibp` -/

/-- C28: when the response body is the line of the 35 characters `phu[5:]`
    with no `:count` part, the line matches and `line[36:]` is out of range:
    `hibp` panics, whatever lies behind the line in the scanner's buffer.  A
    line that is shorter than 35 bytes together with the bytes behind it in
    the buffer makes `line[0:35]` panic. -/
theorem hibp_slice_out_of_range (H : Sha1) (spare : Nat → List Byte) (ctx : Context)
    (c : Request → Except GoError Response) (password : GoString) (bodyErr : Option GoError)
    (hc : ∀ req, c req = .ok ⟨(passwordHashUpper H password).drop 5 ++ [10], bodyErr⟩) :
    (hibp H spare (some ctx) c password).out = .panic "runtime error: slice bounds out of range"
      ∧ (⟨(passwordHashUpper H password).drop 5, spare 0⟩ : Token).sliceFrom 36 = none
      ∧ ∀ suffix scanErr (t : Token) rest, t.line.length + t.spare.length < 35 →
          hibpScan suffix scanErr (t :: rest)
            = .panic "runtime error: slice bounds out of range" := by
  have hlen : ((passwordHashUpper H password).drop 5).length = 35 := by
    simp [passwordHashUpper_length]
  have hfrom : (⟨(passwordHashUpper H password).drop 5, spare 0⟩ : Token).sliceFrom 36
      = none := by
    simp [Token.sliceFrom, hlen]
  have hto : (⟨(passwordHashUpper H password).drop 5, spare 0⟩ : Token).sliceTo 35
      = some ((passwordHashUpper H password).drop 5) := by
    have ht : ((passwordHashUpper H password).drop 5 ++ spare 0).take 35
        = (passwordHashUpper H password).drop 5 := by
      rw [List.take_append_of_le_length (by omega), List.take_of_length_le (by omega)]
    simp only [Token.sliceTo, hlen, ht]
    simp
  refine ⟨?_, hfrom, ?_⟩
  · unfold hibp
    simp only [H.write_nil, NewRequestWithContext, hc, scanLines_suffix, mkTokens, hibpScan,
      hto, hfrom, if_true]
  · intro suffix scanErr t rest hlt
    have hn : t.sliceTo 35 = none := by
      simp only [Token.sliceTo]
      rw [if_neg (by omega)]
    simp only [hibpScan, hn]

theorem hibp_slice_out_of_range_witness :
    (hibp demoSha1 (fun _ => List.replicate 4000 0) (some ⟨0⟩)
        (fun _ => .ok ⟨(passwordHashUpper demoSha1 [1, 2, 3]).drop 5 ++ [10], none⟩)
        [1, 2, 3]).out
      = .panic "runtime error: slice bounds out of range" :=
  (hibp_slice_out_of_range demoSha1 (fun _ => List.replicate 4000 0) ⟨0⟩
    (fun _ => .ok ⟨(passwordHashUpper demoSha1 [1, 2, 3]).drop 5 ++ [10], none⟩)
    [1, 2, 3] none (fun _ => rfl)).1

end Usm
